import Mathlib

/-!
# The comics backend of evince: `backend/comics/comics-document.c`

A shallow embedding of the comic-book document backend and the properties of
its page catalogue, its format selection, its dimension probe and its page
renderer.

Conventions of the embedding.

* A C string is the list of its bytes before the terminating NUL (`CStr`).
  Content types, URIs and local paths are only handed to library routines and
  printed, so they are kept as `String`.
* The libraries the backend calls (GLib, GIO, gdk-pixbuf, the archive reader of
  `ev-archive.c`) are not part of the source file.  Their answers are inputs of
  the model: oracles passed as arguments, or small models that follow their
  documented contract and say so in their comment.
* `g_debug` and `g_warning` calls only print diagnostics and are not modelled.
-/

namespace Comics

/-! ## Strings -/

/-- One `char`, as its unsigned value. -/
abbrev Byte := Nat

/-- A NUL-terminated C string: the bytes before the NUL. -/
abbrev CStr := List Byte

/-- A string literal as a C string (ASCII literals only). -/
def cstr (s : String) : CStr := s.toList.map Char.toNat

/-- The C library `strcmp`: compares as unsigned bytes, the end of a string
counting as the smallest byte; only the sign of the result is specified, this
model returns -1, 0 or 1. -/
def strcmp : CStr → CStr → Int
  | [], [] => 0
  | [], _ :: _ => -1
  | _ :: _, [] => 1
  | a :: s1, b :: s2 => if a = b then strcmp s1 s2 else if a < b then -1 else 1

/-- GLib `g_strcmp0` on two non-NULL strings. -/
def g_strcmp0 (str1 str2 : CStr) : Int := strcmp str1 str2

/-- GLib `g_ascii_tolower`: only the bytes A to Z change. -/
def g_ascii_tolower (c : Byte) : Byte :=
  if 65 ≤ c ∧ c ≤ 90 then c - 65 + 97 else c

/-- GLib `g_ascii_strdown (str, -1)`. -/
def g_ascii_strdown (str : CStr) : CStr := str.map g_ascii_tolower

/-- GLib `g_ascii_isspace`: tab, newline, form feed, carriage return, space. -/
def g_ascii_isspace (c : Byte) : Bool :=
  c = 9 || c = 10 || c = 12 || c = 13 || c = 32

/-- GLib `g_strchug`: drops leading white space. -/
def g_strchug (string : CStr) : CStr := string.dropWhile g_ascii_isspace

/-- GLib `g_strchomp`: drops trailing white space. -/
def g_strchomp (string : CStr) : CStr := string.rdropWhile g_ascii_isspace

/-- GLib `g_strstrip`: `g_strchomp (g_strchug (string))`. -/
def g_strstrip (string : CStr) : CStr := g_strchomp (g_strchug string)

/-- The backward scan of `g_strrstr` for a non-empty needle: the suffix of the
haystack that starts at the last place where the needle occurs. -/
def g_strrstr_scan : CStr → CStr → Option CStr
  | [], _ => none
  | c :: hs, needle =>
    match g_strrstr_scan hs needle with
    | some s => some s
    | none => if needle.isPrefixOf (c :: hs) then some (c :: hs) else none

/-- GLib `g_strrstr (haystack, needle)`: a pointer to the last occurrence of
the needle, here the suffix of the haystack starting there, or NULL. -/
def g_strrstr (haystack needle : CStr) : Option CStr :=
  if needle = [] then some haystack else g_strrstr_scan haystack needle

/-- GLib `g_slist_find_custom (list, data, func)`: the first element on which
the comparison function returns 0. -/
def g_slist_find_custom {α β : Type} (list : List α) (data : β) (func : α → β → Int) :
    Option α :=
  list.find? (fun x => func x data == 0)

/-! ## The page catalogue: extension filter -/

/-- The function `get_supported_image_extensions`: every extension of every
format gdk-pixbuf reports, in order (`formats` is the answer of
`gdk_pixbuf_get_formats` with each format replaced by its
`gdk_pixbuf_format_get_extensions`). -/
def get_supported_image_extensions (formats : List (List CStr)) : List CStr :=
  formats.foldl (fun extensions ext => ext.foldl (fun l e => l ++ [e]) extensions) []

/-- The test of the loop body of `comics_document_load` (lines 211-216): the
entry has a dot and the lower-cased text after its last dot is found in the
list of supported extensions. -/
def cb_file_is_page (supported_extensions : List CStr) (cb_file : CStr) : Bool :=
  match g_strrstr cb_file (cstr ".") with
  | none => false
  | some suffix =>
    (g_slist_find_custom supported_extensions (g_ascii_strdown (suffix.drop 1)) strcmp).isSome

/-- The loop of `comics_document_load` over `cb_files` (lines 209-221):
`page_names` is the array built so far. -/
def load_page_names (supported_extensions : List CStr) : List CStr → List CStr → List CStr
  | [], page_names => page_names
  | cb_file :: rest, page_names =>
    if cb_file_is_page supported_extensions cb_file then
      load_page_names supported_extensions rest (page_names ++ [g_strstrip cb_file])
    else
      load_page_names supported_extensions rest page_names

/-! ## The page catalogue: order -/

/-- GLib `g_ascii_isdigit`. -/
def g_ascii_isdigit (c : Byte) : Bool := decide (48 ≤ c ∧ c ≤ 57)

/-- The constant `COLLATION_SENTINEL` of GLib, the bytes 1 1 1. -/
def COLLATION_SENTINEL : CStr := [1, 1, 1]

/-- GLib appends `g_utf8_collate_key` of a pending run of ordinary bytes when
the run is not empty; `ck` is that locale-dependent key. -/
def collate_flush (ck : CStr → CStr) (result run : CStr) : CStr :=
  if run = [] then result else result ++ ck run

/-- GLib writes a digit run as one colon per digit after the first, then the
digits without the leading zeros; the count of leading zeros goes to the text
appended at the very end of the key. -/
def collate_number (result append : CStr) (leading_zeros digits : Nat) (num : CStr) :
    CStr × CStr :=
  (result ++ List.replicate (digits - 1) 58 ++ num.drop leading_zeros,
   if 0 < leading_zeros then append ++ [leading_zeros % 256] else append)

/-- The scan of `g_utf8_collate_key_for_filename`, one byte at a time: `run` is
the pending run of ordinary bytes, `number` the digit run being read (its
leading zeros, its other digits, its bytes). -/
def collate_scan (ck : CStr → CStr) :
    CStr → CStr → CStr → CStr → Option (Nat × Nat × CStr) → CStr
  | [], result, append, run, none => collate_flush ck result run ++ append
  | [], result, append, _, some (leading_zeros, digits, num) =>
    (collate_number result append leading_zeros digits num).1 ++
      (collate_number result append leading_zeros digits num).2
  | c :: p, result, append, run, some (leading_zeros, digits, num) =>
    if c = 48 ∧ digits = 0 then
      collate_scan ck p result append run (some (leading_zeros + 1, digits, num ++ [c]))
    else if g_ascii_isdigit c then
      collate_scan ck p result append run (some (leading_zeros, digits + 1, num ++ [c]))
    else
      let n := if digits = 0 then collate_number result append (leading_zeros - 1) 1 num
               else collate_number result append leading_zeros digits num
      if c = 46 then collate_scan ck p (n.1 ++ COLLATION_SENTINEL ++ [1]) n.2 [] none
      else collate_scan ck p n.1 n.2 [c] none
  | c :: p, result, append, run, none =>
    if c = 46 then
      collate_scan ck p (collate_flush ck result run ++ COLLATION_SENTINEL ++ [1]) append [] none
    else if g_ascii_isdigit c then
      collate_scan ck p (collate_flush ck result run ++ COLLATION_SENTINEL ++ [2]) append []
        (some (if c = 48 then (1, 0, [c]) else (0, 1, [c])))
    else
      collate_scan ck p result append (run ++ [c]) none

/-- Modelled from the spec: the key generator of the Natural Sort Comparator,
GLib `g_utf8_collate_key_for_filename (str, -1)`, is a library routine outside
the source file.  The model follows the scheme GLib documents for it: runs
without dots and digits get the locale key `ck` (`g_utf8_collate_key`), a dot
becomes the sentinel and byte 1, a digit run becomes the sentinel, byte 2, one
colon per digit after the first and the digits, so that numeric magnitude and
not lexical digit order decides. -/
def g_utf8_collate_key_for_filename (ck : CStr → CStr) (str : CStr) : CStr :=
  collate_scan ck str [] [] [] none

/-- The comparator `sort_page_names` (lines 141-157): `strcmp` of the two
filename collation keys; `key` is `g_utf8_collate_key_for_filename`. -/
def sort_page_names (key : CStr → CStr) (a b : CStr) : Int :=
  strcmp (key a) (key b)

/-- GLib `g_ptr_array_sort (array, compare_func)`, a library routine outside
the source file: a stable sort.  For a comparator that is a total preorder
every stable sort returns the same array (and every sort does when no two
elements compare equal); the model is the stable insertion sort. -/
def g_ptr_array_sort {α : Type} (compare_func : α → α → Int) (array : List α) : List α :=
  List.insertionSort (fun a b => compare_func a b ≤ 0) array

/-! ## Errors -/

/-- The error codes of the domain `EV_DOCUMENT_ERROR`. -/
inductive EvDocumentError where
  | EV_DOCUMENT_ERROR_INVALID
  | EV_DOCUMENT_ERROR_UNSUPPORTED_CONTENT
  | EV_DOCUMENT_ERROR_ENCRYPTED
  deriving DecidableEq, Repr

/-- The five message texts the backend passes to `g_set_error`, under the
names the specification gives to the failures they report. -/
inductive ErrorKind where
  /-- The text "Can not get local path for archive" (line 180). -/
  | NoLocalPath
  /-- The text "Not a comic book MIME type: %s" with the content type (line 129). -/
  | UnsupportedType (mime_type : String)
  /-- The text "libarchive lacks support for this comic book's compression,
  please contact your distributor" (line 136). -/
  | UnsupportedCompression
  /-- The text "File corrupted or no files in archive" (line 202). -/
  | CorruptArchive
  /-- The text "No images found in archive %s" with the URI (line 230). -/
  | NoImagesFound (uri : String)
  deriving DecidableEq, Repr

/-- A `GError` of the domain `EV_DOCUMENT_ERROR`: its code and its message. -/
structure GError where
  code : EvDocumentError
  message : ErrorKind
  deriving DecidableEq, Repr

/-! ## The archive reader -/

/-- The archive types of `ev-archive.h`. -/
inductive EvArchiveType where
  | EV_ARCHIVE_TYPE_NONE
  | EV_ARCHIVE_TYPE_RAR
  | EV_ARCHIVE_TYPE_ZIP
  | EV_ARCHIVE_TYPE_7Z
  | EV_ARCHIVE_TYPE_TAR
  deriving DecidableEq, Repr

/-- The reader object: the archive type it is committed to. -/
structure EvArchive where
  archive_type : EvArchiveType
  deriving DecidableEq, Repr

/-- Modelled from the spec: `ev_archive_new` of ev-archive.c, which is not in
the source file: a reader committed to no type. -/
def ev_archive_new : EvArchive := ⟨EvArchiveType.EV_ARCHIVE_TYPE_NONE⟩

/-- Modelled from the spec: `ev_archive_set_archive_type` of ev-archive.c, which
is not in the source file.  It commits the reader to the type and succeeds, or
fails when the container library build lacks support for the type (`codec`
says which types the build supports) and leaves the reader as it was. -/
def ev_archive_set_archive_type (codec : EvArchiveType → Bool) (archive : EvArchive)
    (archive_type : EvArchiveType) : Bool × EvArchive :=
  if codec archive_type then (true, { archive with archive_type := archive_type })
  else (false, archive)

/-- The outcome of one `ev_archive_read_data` call: an error (a negative
count) or the bytes stored in the buffer (their number is the count). -/
inductive ReadResult where
  | error
  | data (bytes : List Byte)
  deriving DecidableEq, Repr

/-- The `gssize` an `ev_archive_read_data` call returns. -/
def ReadResult.count : ReadResult → Int
  | ReadResult.error => -1
  | ReadResult.data bytes => bytes.length

/-- The bytes an `ev_archive_read_data` call stored in the buffer. -/
def ReadResult.bytes : ReadResult → List Byte
  | ReadResult.error => []
  | ReadResult.data bytes => bytes

/-- A read never stores more than the `count` bytes it was asked for. -/
def ReadResult.clamp (count : Nat) : ReadResult → ReadResult
  | ReadResult.error => ReadResult.error
  | ReadResult.data bytes => ReadResult.data (bytes.take count)

/-- Modelled from the spec: `ev_archive_read_data (archive, buf, count, error)` of
ev-archive.c, which is not in the source file: `read_data(buffer, max_len)`
gives `bytes_read`, 0 or an error.  The data stream of the current entry is
the list of the outcomes of the successive calls; each call takes the next
outcome, cut to the count asked for, and a call past the end of the list
returns 0 bytes. -/
def ev_archive_read_data : List ReadResult → Nat → ReadResult × List ReadResult
  | [], _ => (ReadResult.data [], [])
  | r :: rest, count => (r.clamp count, rest)

/-- An entry as the reader reports it: `ev_archive_get_entry_pathname`,
`ev_archive_get_entry_size` and the data stream of the entry. -/
structure ArchiveEntry where
  pathname : CStr
  size : Nat
  stream : List ReadResult
  deriving DecidableEq, Repr

/-- What a scan of the file at the archive path meets: whether
`ev_archive_open_filename` succeeds, and the entries for which
`ev_archive_read_next_header` returns TRUE before it first returns FALSE (at
the end of the archive or on a fatal error). -/
structure ArchiveFile where
  opens : Bool
  entries : List ArchiveEntry
  deriving DecidableEq, Repr

/-! ## The document -/

/-- The fields of `struct _ComicsDocument`; a NULL pointer is `none`. -/
structure ComicsDocument where
  archive : EvArchive
  archive_path : Option String
  archive_uri : Option String
  page_names : Option (List CStr)
  deriving DecidableEq, Repr

/-- The function `comics_document_init` on a zero-filled instance. -/
def comics_document_init : ComicsDocument :=
  { archive := ev_archive_new, archive_path := none, archive_uri := none, page_names := none }

/-- The function `comics_document_list` (lines 61-100): the pathnames of the
entries, or NULL when the archive does not open or has no entry. -/
def comics_document_list (file : ArchiveFile) : Option (List CStr) :=
  if file.opens then
    let array := file.entries.map ArchiveEntry.pathname
    if array.length = 0 then none else some array
  else none

/-- The function `comics_check_decompress_support` (lines 104-139):
`is_a` is `g_content_type_is_a`, `codec` the support of the library build.
Returns the result, the error set for the caller and the reader. -/
def comics_check_decompress_support (is_a : String → String → Bool)
    (codec : EvArchiveType → Bool) (mime_type : String) (archive : EvArchive) :
    Bool × Option GError × EvArchive :=
  let lacks : Option GError :=
    some ⟨EvDocumentError.EV_DOCUMENT_ERROR_INVALID, ErrorKind.UnsupportedCompression⟩
  if is_a mime_type "application/x-cbr" || is_a mime_type "application/x-rar" then
    let r := ev_archive_set_archive_type codec archive EvArchiveType.EV_ARCHIVE_TYPE_RAR
    if r.1 then (true, none, r.2) else (false, lacks, r.2)
  else if is_a mime_type "application/x-cbz" || is_a mime_type "application/zip" then
    let r := ev_archive_set_archive_type codec archive EvArchiveType.EV_ARCHIVE_TYPE_ZIP
    if r.1 then (true, none, r.2) else (false, lacks, r.2)
  else if is_a mime_type "application/x-cb7" || is_a mime_type "application/x-7z-compressed" then
    let r := ev_archive_set_archive_type codec archive EvArchiveType.EV_ARCHIVE_TYPE_7Z
    if r.1 then (true, none, r.2) else (false, lacks, r.2)
  else if is_a mime_type "application/x-cbt" || is_a mime_type "application/x-tar" then
    let r := ev_archive_set_archive_type codec archive EvArchiveType.EV_ARCHIVE_TYPE_TAR
    if r.1 then (true, none, r.2) else (false, lacks, r.2)
  else
    (false,
     some ⟨EvDocumentError.EV_DOCUMENT_ERROR_INVALID, ErrorKind.UnsupportedType mime_type⟩,
     archive)

/-- The answers of the libraries and of the file system that
`comics_document_load` depends on. -/
structure Host where
  /-- The local path of a URI, `g_file_get_path (g_file_new_for_uri (uri))`. -/
  g_file_get_path : String → Option String
  /-- The detected content type, `ev_file_get_mime_type (uri, FALSE, &err)`. -/
  ev_file_get_mime_type : String → Option String
  /-- GIO `g_content_type_is_a`. -/
  g_content_type_is_a : String → String → Bool
  /-- The archive types the container library build supports. -/
  codec : EvArchiveType → Bool
  /-- What the reader meets at a local path. -/
  archive_at : String → ArchiveFile
  /-- The extensions of each format of `gdk_pixbuf_get_formats`. -/
  formats : List (List CStr)
  /-- GLib `g_utf8_collate_key_for_filename (str, -1)`. -/
  collate_key : CStr → CStr

/-- What `comics_document_load` leaves behind: its return value, the error of
the caller (unset before the call) and the document. -/
structure LoadResult where
  ok : Bool
  error : Option GError
  document : ComicsDocument

/-- The function `comics_document_load` (lines 159-239). -/
def comics_document_load (host : Host) (document : ComicsDocument) (uri : String) :
    LoadResult :=
  match host.g_file_get_path uri with
  | none =>
    ⟨false, some ⟨EvDocumentError.EV_DOCUMENT_ERROR_INVALID, ErrorKind.NoLocalPath⟩,
      { document with archive_path := none }⟩
  | some archive_path =>
    let doc1 := { document with archive_path := some archive_path, archive_uri := some uri }
    match host.ev_file_get_mime_type uri with
    | none => ⟨false, none, doc1⟩
    | some mime_type =>
      match comics_check_decompress_support host.g_content_type_is_a host.codec mime_type
          doc1.archive with
      | (false, error, archive) => ⟨false, error, { doc1 with archive := archive }⟩
      | (true, _, archive) =>
        let doc2 := { doc1 with archive := archive }
        match comics_document_list (host.archive_at archive_path) with
        | none =>
          ⟨false, some ⟨EvDocumentError.EV_DOCUMENT_ERROR_INVALID, ErrorKind.CorruptArchive⟩,
            doc2⟩
        | some cb_files =>
          let supported_extensions := get_supported_image_extensions host.formats
          let page_names := load_page_names supported_extensions cb_files []
          if page_names.length = 0 then
            ⟨false,
              some ⟨EvDocumentError.EV_DOCUMENT_ERROR_INVALID, ErrorKind.NoImagesFound uri⟩,
              { doc2 with page_names := some page_names }⟩
          else
            ⟨true, none,
              { doc2 with
                page_names := some (g_ptr_array_sort (sort_page_names host.collate_key)
                  page_names) }⟩

/-- The function `comics_document_get_n_pages` (lines 251-260). -/
def comics_document_get_n_pages (document : ComicsDocument) : Nat :=
  match document.page_names with
  | none => 0
  | some page_names => page_names.length

/-! ## The image decoder -/

/-- The incremental decoder `GdkPixbufLoader`, a library object outside the
source file, as a state machine over states `σ` producing pixel buffers `π`.
A write returns whether it succeeded, the `size-prepared` signal it emitted
(width and height) if it emitted one, and the next state.  Closing parses the
data still pending and so may emit `size-prepared` too. -/
structure GdkPixbufLoader (σ π : Type) where
  /-- The state after `gdk_pixbuf_loader_new`. -/
  new : σ
  /-- The call `gdk_pixbuf_loader_write`. -/
  write : σ → List Byte → Bool × Option (Int × Int) × σ
  /-- The call `gdk_pixbuf_loader_set_size`. -/
  set_size : σ → Int → Int → σ
  /-- The call `gdk_pixbuf_loader_close`: the `size-prepared` signal it emitted,
  if it emitted one, and the next state. -/
  close : σ → Option (Int × Int) × σ
  /-- The call `gdk_pixbuf_loader_get_pixbuf`. -/
  get_pixbuf : σ → Option π

/-- What the backend does to its collaborators, in order: a read of entry
data (the count asked for and the outcome), a write to the decoder (the bytes,
whether it succeeded, the `size-prepared` signal), a call of
`gdk_pixbuf_rotate_simple` (the angle). -/
inductive Event where
  | read (count : Nat) (result : ReadResult)
  | write (bytes : List Byte) (ok : Bool) (size_prepared : Option (Int × Int))
  | rotate (angle : Int)
  deriving DecidableEq, Repr

/-- The constant `BLOCK_SIZE`. -/
def BLOCK_SIZE : Int := 10240

/-! ## The dimension probe -/

/-- The struct `PixbufInfo`; the two sizes are not initialised in C and are
only read once `got_info` is set. -/
structure PixbufInfo where
  got_info : Bool
  height : Int
  width : Int
  deriving DecidableEq, Repr

/-- The callback `get_page_size_prepared_cb` (lines 268-277). -/
def get_page_size_prepared_cb (width height : Int) (_info : PixbufInfo) : PixbufInfo :=
  { got_info := true, height := height, width := width }

/-- The handler connected to `size-prepared` (lines 299-301) runs
`get_page_size_prepared_cb` when a write emits the signal. -/
def size_prepared_signal (signal : Option (Int × Int)) (info : PixbufInfo) : PixbufInfo :=
  match signal with
  | some (width, height) => get_page_size_prepared_cb width height info
  | none => info

/-- The state of the probe when its scan of the archive ends. -/
structure Probe (σ : Type) where
  loader : σ
  info : PixbufInfo
  trace : List Event

/-- The chunked feed of the matched entry (lines 323-334), entered at each
`ev_archive_read_data` call: the call before the `while` and the call that
ends each turn of its body.  `stream` is the data stream of the entry, `left`
the variable of that name; it starts at the declared size and never gets
negative, since a read stores no more than it is asked for, so the count
`MIN (BLOCK_SIZE, left)` converts to `gsize` unchanged. -/
def get_page_size_feed {σ π : Type} (L : GdkPixbufLoader σ π) :
    List ReadResult → Int → σ → PixbufInfo → Probe σ
  | [], left, loader, info =>
    ⟨loader, info,
      [Event.read (min BLOCK_SIZE left).toNat
        (ev_archive_read_data [] (min BLOCK_SIZE left).toNat).1]⟩
  | r :: rest, left, loader, info =>
    let count := (min BLOCK_SIZE left).toNat
    let read := (ev_archive_read_data (r :: rest) count).1
    if 0 < read.count ∧ info.got_info = false then
      let w := L.write loader read.bytes
      let info1 := size_prepared_signal w.2.1 info
      if w.1 then
        let p := get_page_size_feed L rest (left - read.count) w.2.2 info1
        ⟨p.loader, p.info, Event.read count read :: Event.write read.bytes w.1 w.2.1 :: p.trace⟩
      else
        ⟨w.2.2, info1, [Event.read count read, Event.write read.bytes w.1 w.2.1]⟩
    else
      ⟨loader, info, [Event.read count read]⟩

/-- The header scan of `comics_document_get_page_size` (lines 305-341): the
entries are read in order until one has the pathname of the page. -/
def get_page_size_scan {σ π : Type} (L : GdkPixbufLoader σ π) (page_path : CStr) :
    List ArchiveEntry → σ → PixbufInfo → Probe σ
  | [], loader, info => ⟨loader, info, []⟩
  | e :: rest, loader, info =>
    if g_strcmp0 e.pathname page_path = 0 then
      get_page_size_feed L e.stream (e.size : Int) loader info
    else
      get_page_size_scan L page_path rest loader info

/-- What `comics_document_get_page_size` leaves behind: the two variables of
the caller (`none` for a NULL pointer), the reads and writes it made while
scanning, and the `size-prepared` signal emitted while it closed the decoder
(`none` when none was emitted or the decoder was never created). -/
structure PageSize where
  width : Option Int
  height : Option Int
  trace : List Event
  at_close : Option (Int × Int)
  deriving DecidableEq, Repr

/-- The function `comics_document_get_page_size` (lines 279-355): `file` is
what the reader meets at the archive path, `width` and `height` the variables
of the caller (`none` for a NULL pointer).  The result is `none` when the
behaviour is undefined in C: no page list, or an index outside it.  After the
scan the decoder is closed (line 343) with the handler still connected, and
only then is `got_info` tested (line 346).  The function has no error result:
it returns nothing and takes no `GError`. -/
def comics_document_get_page_size {σ π : Type} (L : GdkPixbufLoader σ π) (file : ArchiveFile)
    (document : ComicsDocument) (index : Nat) (width height : Option Int) :
    Option PageSize :=
  if file.opens then
    match document.page_names with
    | none => none
    | some page_names =>
      match page_names.get? index with
      | none => none
      | some page_path =>
        let p := get_page_size_scan L page_path file.entries L.new ⟨false, 0, 0⟩
        let c := L.close p.loader
        let info := size_prepared_signal c.1 p.info
        if info.got_info then
          some ⟨width.map (fun _ => info.width), height.map (fun _ => info.height), p.trace,
            c.1⟩
        else
          some ⟨width, height, p.trace, c.1⟩
  else
    some ⟨width, height, [], none⟩

/-! ## The page renderer -/

/-- The callback `render_pixbuf_size_prepared_cb` (lines 357-367):
`scaled_size` is `ev_render_context_compute_scaled_size` for the render
context. -/
def render_pixbuf_size_prepared_cb {σ π : Type} (L : GdkPixbufLoader σ π)
    (scaled_size : Int → Int → Int × Int) (loader : σ) (width height : Int) : σ :=
  L.set_size loader (scaled_size width height).1 (scaled_size width height).2

/-- The handler connected to `size-prepared` by the renderer (lines 387-389)
runs `render_pixbuf_size_prepared_cb` when a call emits the signal. -/
def render_size_prepared_signal {σ π : Type} (L : GdkPixbufLoader σ π)
    (scaled_size : Int → Int → Int × Int) (signal : Option (Int × Int)) (loader : σ) : σ :=
  match signal with
  | some (width, height) => render_pixbuf_size_prepared_cb L scaled_size loader width height
  | none => loader

/-- The buffer after a read stored its bytes at the start of it. -/
def buf_store (buf bytes : List Byte) : List Byte :=
  bytes ++ buf.drop bytes.length

/-- The body run on the matched entry (lines 406-424): `uninit` gives the
bytes of the block `g_malloc` returns, which C leaves unspecified. -/
def render_pixbuf_entry {σ π : Type} (L : GdkPixbufLoader σ π)
    (scaled_size : Int → Int → Int × Int) (uninit : Nat → Byte) (e : ArchiveEntry)
    (loader : σ) : σ × List Event :=
  let size := e.size
  let buf := (List.range size).map uninit
  let read := (ev_archive_read_data e.stream size).1
  if read.count ≤ 0 then
    let c := L.close loader
    (render_size_prepared_signal L scaled_size c.1 c.2, [Event.read size read])
  else
    let buf1 := buf_store buf read.bytes
    let w := L.write loader (buf1.take size)
    let loader1 := render_size_prepared_signal L scaled_size w.2.1 w.2.2
    let c := L.close loader1
    (render_size_prepared_signal L scaled_size c.1 c.2,
      [Event.read size read, Event.write (buf1.take size) w.1 w.2.1])

/-- The header scan of `comics_document_render_pixbuf` (lines 393-426). -/
def render_pixbuf_scan {σ π : Type} (L : GdkPixbufLoader σ π)
    (scaled_size : Int → Int → Int × Int) (uninit : Nat → Byte) (page_path : CStr) :
    List ArchiveEntry → σ → σ × List Event
  | [], loader => (loader, [])
  | e :: rest, loader =>
    if g_strcmp0 e.pathname page_path = 0 then
      render_pixbuf_entry L scaled_size uninit e loader
    else
      render_pixbuf_scan L scaled_size uninit page_path rest loader

/-- The rotation step (lines 428-435): `rotate_simple` is
`gdk_pixbuf_rotate_simple`, `rotation` the field of the render context, a C
`int` whose remainder truncates towards zero. -/
def render_pixbuf_rotate {π : Type} (rotate_simple : π → Int → Option π)
    (tmp_pixbuf : Option π) (rotation : Int) : Option π × List Event :=
  match tmp_pixbuf with
  | none => (none, [])
  | some pixbuf =>
    if rotation.tmod 360 = 0 then (some pixbuf, [])
    else (rotate_simple pixbuf (360 - rotation), [Event.rotate (360 - rotation)])

/-- The function `comics_document_render_pixbuf` (lines 369-441): the pixel
buffer returned (`none` for NULL) and what the function did.  The result is
`none` when the behaviour is undefined in C: no page list, or an index outside
it. -/
def comics_document_render_pixbuf {σ π : Type} (L : GdkPixbufLoader σ π)
    (scaled_size : Int → Int → Int × Int) (rotate_simple : π → Int → Option π)
    (uninit : Nat → Byte) (file : ArchiveFile) (document : ComicsDocument) (index : Nat)
    (rotation : Int) : Option (Option π × List Event) :=
  if file.opens then
    match document.page_names with
    | none => none
    | some page_names =>
      match page_names.get? index with
      | none => none
      | some page_path =>
        let s := render_pixbuf_scan L scaled_size uninit page_path file.entries L.new
        let r := render_pixbuf_rotate rotate_simple (L.get_pixbuf s.1) rotation
        some (r.1, s.2 ++ r.2)
  else
    some (none, [])

/-! ## The format families of the specification -/

/-- The four families of the Format Selector as the specification words
them, in the order RAR, ZIP, 7Z, TAR: each with its archive type, its comic
alias and its generic container type. -/
def spec_format_families : List (EvArchiveType × String × String) :=
  [(EvArchiveType.EV_ARCHIVE_TYPE_RAR, "application/x-cbr", "application/x-rar"),
   (EvArchiveType.EV_ARCHIVE_TYPE_ZIP, "application/x-cbz", "application/zip"),
   (EvArchiveType.EV_ARCHIVE_TYPE_7Z, "application/x-cb7", "application/x-7z-compressed"),
   (EvArchiveType.EV_ARCHIVE_TYPE_TAR, "application/x-cbt", "application/x-tar")]

/-- The specification's reading of a match: the archive type of the first
family the content type matches, by the comic alias or by the generic
container type. -/
def spec_matched_family (is_a : String → String → Bool) (mime_type : String) :
    Option EvArchiveType :=
  (spec_format_families.find? (fun f => is_a mime_type f.2.1 || is_a mime_type f.2.2)).map
    (fun f => f.1)

/-! ## Concrete inputs -/

/-- A host for the examples: every URI has the local path `/book.cbz` and
the content type `application/x-cbz`, content types match by equality, the
library build supports every archive type, gdk-pixbuf knows png, jpeg, jpg,
and the collation key is the GLib scheme over the identity locale key.  The
reader meets `file` at every path. -/
def example_host (file : ArchiveFile) : Host :=
  { g_file_get_path := fun _ => some "/book.cbz"
    ev_file_get_mime_type := fun _ => some "application/x-cbz"
    g_content_type_is_a := fun a b => decide (a = b)
    codec := fun _ => true
    archive_at := fun _ => file
    formats := [[cstr "png"], [cstr "jpeg", cstr "jpg"]]
    collate_key := g_utf8_collate_key_for_filename id }

/-- An entry of the examples with a pathname only. -/
def example_entry (pathname : String) : ArchiveEntry :=
  { pathname := cstr pathname, size := 0, stream := [] }

/-- The example host when content-type detection fails for every URI. -/
def example_host_no_mime (file : ArchiveFile) : Host :=
  { example_host file with ev_file_get_mime_type := fun _ => none }

/-! ## Reading a trace -/

/-- The number of bytes the reads of a trace delivered. -/
def bytes_read : List Event → Nat
  | [] => 0
  | Event.read _ result :: t => result.bytes.length + bytes_read t
  | Event.write _ _ _ :: t => bytes_read t
  | Event.rotate _ :: t => bytes_read t

/-- Whether an event is a write to the decoder. -/
def Event.is_write : Event → Bool
  | Event.write _ _ _ => true
  | _ => false

/-- Whether an event is a write during which the decoder emitted
`size-prepared`. -/
def Event.reports_size : Event → Bool
  | Event.write _ _ (some _) => true
  | _ => false

/-! ## Concrete decoders and archives -/

/-- A decoder for the examples: its state and its pixel buffer are the bytes
written so far, every write succeeds, and a write emits `size-prepared` with
width 5 and height 7 when `header` says the bytes written so far hold the
image header and did not before this write; closing emits nothing. -/
def example_loader (header : List Byte → Bool) : GdkPixbufLoader (List Byte) (List Byte) :=
  { new := []
    write := fun s bytes =>
      (true, if header (s ++ bytes) ∧ ¬ header s then some (5, 7) else none, s ++ bytes)
    set_size := fun s _ _ => s
    close := fun s => (none, s)
    get_pixbuf := fun s => if s = [] then none else some s }

/-- A document whose page list is the one page `a.png`. -/
def example_document : ComicsDocument :=
  { comics_document_init with page_names := some [cstr "a.png"] }

/-- A stand-in for `gdk_pixbuf_rotate_simple` in the examples: it rotates by
the four angles of `GdkPixbufRotation` only, and here leaves the bytes as they
are. -/
def example_rotate (pixbuf : List Byte) (angle : Int) : Option (List Byte) :=
  if angle = 0 ∨ angle = 90 ∨ angle = 180 ∨ angle = 270 then some pixbuf else none


/-- A decoder for the examples that keeps the bytes it is given until it is
closed, as a decoder does while it has fewer bytes than it needs to recognise
the format: no write emits `size-prepared`, and closing emits it with width 5
and height 7 when some byte was written. -/
def example_loader_parsing_at_close : GdkPixbufLoader (List Byte) (List Byte) :=
  { new := []
    write := fun s bytes => (true, none, s ++ bytes)
    set_size := fun s _ _ => s
    close := fun s => (if s = [] then none else some (5, 7), s)
    get_pixbuf := fun s => if s = [] then none else some s }
/-! ### Lemmas on the string routines -/

theorem strcmp_eq_zero_iff (a b : CStr) : strcmp a b = 0 ↔ a = b := by
  induction a generalizing b with
  | nil => cases b <;> simp [strcmp]
  | cons x xs ih =>
    cases b with
    | nil => simp [strcmp]
    | cons y ys =>
      by_cases h : x = y
      · simp [strcmp, h, ih]
      · by_cases h2 : x < y <;> simp [strcmp, h, h2]

theorem g_slist_find_custom_strcmp_isSome (l : List CStr) (s : CStr) :
    (g_slist_find_custom l s strcmp).isSome = true ↔ s ∈ l := by
  unfold g_slist_find_custom
  rw [List.find?_isSome]
  constructor
  · rintro ⟨x, hx, h⟩
    have : x = s := (strcmp_eq_zero_iff x s).1 (by simpa using h)
    exact this ▸ hx
  · intro h
    exact ⟨s, h, by simp [(strcmp_eq_zero_iff s s).2 rfl]⟩

theorem g_strrstr_scan_dot_none (p : CStr) :
    g_strrstr_scan p [46] = none ↔ 46 ∉ p := by
  induction p with
  | nil => simp [g_strrstr_scan]
  | cons c hs ih =>
    unfold g_strrstr_scan
    cases h : g_strrstr_scan hs [46] with
    | some s =>
      have : ¬ (46 ∉ hs) := fun hn => by simp [ih.2 hn] at h
      simp only [List.mem_cons, not_or]
      simp
      intro _
      exact not_not.1 this
    | none =>
      have h46 := ih.1 h
      by_cases hc : c = 46
      · simp [hc, List.isPrefixOf]
      · have hc2 : ¬ (46 = c) := fun e => hc e.symm
        simp [hc, hc2, h46, List.isPrefixOf]

theorem g_strrstr_scan_dot_last (pre ext : CStr) (h : 46 ∉ ext) :
    g_strrstr_scan (pre ++ 46 :: ext) [46] = some (46 :: ext) := by
  induction pre with
  | nil =>
    simp [g_strrstr_scan, (g_strrstr_scan_dot_none ext).2 h, List.isPrefixOf]
  | cons c pre ih =>
    simp [g_strrstr_scan, ih]

theorem g_strrstr_scan_dot_some (p s : CStr) (h : g_strrstr_scan p [46] = some s) :
    ∃ pre ext, p = pre ++ 46 :: ext ∧ 46 ∉ ext ∧ s = 46 :: ext := by
  induction p with
  | nil => simp [g_strrstr_scan] at h
  | cons c hs ih =>
    unfold g_strrstr_scan at h
    cases h2 : g_strrstr_scan hs [46] with
    | some t =>
      rw [h2] at h
      simp at h
      obtain ⟨pre, ext, hp, hn, ht⟩ := ih (h ▸ h2)
      exact ⟨c :: pre, ext, by simp [hp], hn, ht⟩
    | none =>
      rw [h2] at h
      have h46 := (g_strrstr_scan_dot_none hs).1 h2
      by_cases hc : c = 46
      · subst hc
        simp [List.isPrefixOf] at h
        exact ⟨[], hs, by simp, h46, h.symm⟩
      · have hc2 : ¬ (46 = c) := fun e => hc e.symm
        simp [List.isPrefixOf, hc2] at h
theorem cstr_dot : cstr "." = [46] := by decide

theorem cb_file_is_page_iff_aux (E : List CStr) (p : CStr) :
    cb_file_is_page E p = true ↔
      ∃ pre ext, p = pre ++ 46 :: ext ∧ 46 ∉ ext ∧ g_ascii_strdown ext ∈ E := by
  unfold cb_file_is_page g_strrstr
  rw [cstr_dot]
  simp only [List.cons_ne_nil, if_false]
  constructor
  · intro h
    cases hs : g_strrstr_scan p [46] with
    | none => simp [hs] at h
    | some s =>
      rw [hs] at h
      obtain ⟨pre, ext, hp, hn, hse⟩ := g_strrstr_scan_dot_some p s hs
      refine ⟨pre, ext, hp, hn, ?_⟩
      have h2 := (g_slist_find_custom_strcmp_isSome E _).1 h
      simpa [hse] using h2
  · rintro ⟨pre, ext, hp, hn, hE⟩
    rw [hp, g_strrstr_scan_dot_last pre ext hn]
    exact (g_slist_find_custom_strcmp_isSome E _).2 (by simpa using hE)

theorem cb_file_is_page_no_dot (E : List CStr) (p : CStr) (h : 46 ∉ p) :
    cb_file_is_page E p = false := by
  cases hb : cb_file_is_page E p with
  | false => rfl
  | true =>
    obtain ⟨pre, ext, hp, _, _⟩ := (cb_file_is_page_iff_aux E p).1 hb
    exact absurd (by simp [hp]) h

theorem load_page_names_acc (E : List CStr) (names acc : List CStr) :
    load_page_names E names acc =
      acc ++ (names.filter (cb_file_is_page E)).map g_strstrip := by
  induction names generalizing acc with
  | nil => simp [load_page_names]
  | cons n rest ih =>
    by_cases h : cb_file_is_page E n = true
    · simp [load_page_names, h, ih]
    · simp [load_page_names, h, ih]

theorem load_page_names_eq (E : List CStr) (names : List CStr) :
    load_page_names E names [] = (names.filter (cb_file_is_page E)).map g_strstrip := by
  simp [load_page_names_acc]

/-- C1: the loop of `comics_document_load` accepts an entry pathname exactly
when it has a dot and the ASCII-lower-cased text after its last dot is in the
set of recognized extensions; the page list is the accepted pathnames, each
stripped, in listing order.  So `PAGE.JPG` and `page.jpg` are both accepted
when `jpg` is recognized, a pathname without a dot is rejected for every set,
and of `a.png`, `b.txt`, `c.PNG` with `png` recognized and `txt` not, exactly
`a.png` and `c.PNG` are accepted. -/
theorem extension_filter_accepts_iff :
    (∀ (E : List CStr) (p : CStr),
      cb_file_is_page E p = true ↔
        ∃ pre ext, p = pre ++ 46 :: ext ∧ 46 ∉ ext ∧ g_ascii_strdown ext ∈ E) ∧
    (∀ (E names : List CStr),
      load_page_names E names [] = (names.filter (cb_file_is_page E)).map g_strstrip) ∧
    (∀ E : List CStr, cstr "jpg" ∈ E →
      cb_file_is_page E (cstr "PAGE.JPG") = true ∧ cb_file_is_page E (cstr "page.jpg") = true) ∧
    (∀ (E : List CStr) (p : CStr), 46 ∉ p → cb_file_is_page E p = false) ∧
    (∀ E : List CStr, cstr "png" ∈ E → cstr "txt" ∉ E →
      load_page_names E [cstr "a.png", cstr "b.txt", cstr "c.PNG"] [] =
        [cstr "a.png", cstr "c.PNG"]) := by
  refine ⟨cb_file_is_page_iff_aux, load_page_names_eq, ?_, cb_file_is_page_no_dot, ?_⟩
  · intro E hE
    constructor
    · exact (cb_file_is_page_iff_aux E _).2 ⟨cstr "PAGE", cstr "JPG", by decide, by decide, hE⟩
    · exact (cb_file_is_page_iff_aux E _).2 ⟨cstr "page", cstr "jpg", by decide, by decide, hE⟩
  · intro E hpng htxt
    have ha : cb_file_is_page E (cstr "a.png") = true :=
      (cb_file_is_page_iff_aux E _).2 ⟨cstr "a", cstr "png", by decide, by decide, hpng⟩
    have hc : cb_file_is_page E (cstr "c.PNG") = true :=
      (cb_file_is_page_iff_aux E _).2 ⟨cstr "c", cstr "PNG", by decide, by decide, hpng⟩
    have hb : cb_file_is_page E (cstr "b.txt") = false := by
      cases hb : cb_file_is_page E (cstr "b.txt") with
      | false => rfl
      | true =>
        obtain ⟨pre, ext, hp, hn, hE⟩ := (cb_file_is_page_iff_aux E _).1 hb
        have h1 := g_strrstr_scan_dot_last pre ext hn
        rw [← hp] at h1
        have h2 : g_strrstr_scan (cstr "b.txt") [46] = some (cstr ".txt") := by decide
        rw [h2] at h1
        have h3 : ext = cstr "txt" := by
          have := Option.some.inj h1
          have h4 : cstr ".txt" = 46 :: cstr "txt" := by decide
          rw [h4] at this
          exact (List.cons.inj this).2.symm
        rw [h3] at hE
        exact absurd hE htxt
    rw [load_page_names_eq]
    simp only [List.filter, ha, hb, hc, List.map]
    decide

/-- Witness for C1 at the extension set png, jpeg, jpg: the three instances. -/
theorem extension_filter_accepts_iff_witness :
    (cb_file_is_page [cstr "png", cstr "jpeg", cstr "jpg"] (cstr "PAGE.JPG") = true ∧
      cb_file_is_page [cstr "png", cstr "jpeg", cstr "jpg"] (cstr "page.jpg") = true) ∧
    load_page_names [cstr "png", cstr "jpeg", cstr "jpg"]
      [cstr "a.png", cstr "b.txt", cstr "c.PNG"] [] = [cstr "a.png", cstr "c.PNG"] :=
  ⟨extension_filter_accepts_iff.2.2.1 _ (by decide),
   extension_filter_accepts_iff.2.2.2.2 _ (by decide) (by decide)⟩

/-! ### The comparator and the sort -/

theorem strcmp_total (a b : List Nat) : strcmp a b ≤ 0 ∨ strcmp b a ≤ 0 := by
  induction a generalizing b with
  | nil => cases b <;> simp [strcmp]
  | cons x xs ih =>
    cases b with
    | nil => simp [strcmp]
    | cons y ys =>
      by_cases h : x = y
      · subst h
        simpa [strcmp] using ih ys
      · have h2 : ¬ (y = x) := fun e => h e.symm
        by_cases h3 : x < y
        · simp [strcmp, h, h3]
        · have h4 : y < x := by omega
          simp [strcmp, h, h2, h3, h4]

theorem strcmp_trans (a b c : List Nat) (hab : strcmp a b ≤ 0) (hbc : strcmp b c ≤ 0) :
    strcmp a c ≤ 0 := by
  induction a generalizing b c with
  | nil => cases c <;> simp [strcmp]
  | cons x xs ih =>
    cases b with
    | nil => simp [strcmp] at hab
    | cons y ys =>
      cases c with
      | nil => simp [strcmp] at hbc
      | cons z zs =>
        simp only [strcmp] at hab hbc ⊢
        by_cases hxy : x = y
        · subst hxy
          by_cases hxz : x = z
          · subst hxz
            simp only [if_true] at hab hbc ⊢
            exact ih ys zs hab hbc
          · simp only [hxz, if_false] at hbc ⊢
            by_cases h3 : x < z
            · simp [h3]
            · simp [h3] at hbc
        · simp only [hxy, if_false] at hab
          by_cases h1 : x < y
          · by_cases hyz : y = z
            · subst hyz
              simp [hxy, h1]
            · simp only [hyz, if_false] at hbc
              by_cases h2 : y < z
              · have hxz : x ≠ z := by omega
                have h3 : x < z := by omega
                simp [hxz, h3]
              · simp [h2] at hbc
          · simp [h1] at hab

theorem strcmp_append_left (p a b : CStr) : strcmp (p ++ a) (p ++ b) = strcmp a b := by
  induction p with
  | nil => rfl
  | cons x xs ih => simp [strcmp, ih]

theorem g_ptr_array_sort_sorted (key : CStr → CStr) (l : List CStr) :
    List.Chain' (fun a b => sort_page_names key a b ≤ 0)
      (g_ptr_array_sort (sort_page_names key) l) := by
  haveI : IsTotal CStr (fun a b => sort_page_names key a b ≤ 0) :=
    ⟨fun a b => strcmp_total (key a) (key b)⟩
  haveI : IsTrans CStr (fun a b => sort_page_names key a b ≤ 0) :=
    ⟨fun a b c h1 h2 => strcmp_trans (key a) (key b) (key c) h1 h2⟩
  exact (List.sorted_insertionSort (fun a b => sort_page_names key a b ≤ 0) l).chain'

theorem g_ptr_array_sort_perm {α : Type} (cmp : α → α → Int) (l : List α) :
    List.Perm (g_ptr_array_sort cmp l) l :=
  List.perm_insertionSort _ l

/-! ### The load function, step by step -/

theorem load_no_path (host : Host) (document : ComicsDocument) (uri : String)
    (hpath : host.g_file_get_path uri = none) :
    comics_document_load host document uri =
      ⟨false, some ⟨EvDocumentError.EV_DOCUMENT_ERROR_INVALID, ErrorKind.NoLocalPath⟩,
        { document with archive_path := none }⟩ := by
  simp [comics_document_load, hpath]

theorem load_no_mime (host : Host) (document : ComicsDocument) (uri ap : String)
    (hpath : host.g_file_get_path uri = some ap)
    (hmime : host.ev_file_get_mime_type uri = none) :
    comics_document_load host document uri =
      ⟨false, none, { document with archive_path := some ap, archive_uri := some uri }⟩ := by
  simp [comics_document_load, hpath, hmime]

theorem load_unsupported (host : Host) (document : ComicsDocument) (uri ap m : String)
    (error : Option GError) (archive : EvArchive)
    (hpath : host.g_file_get_path uri = some ap)
    (hmime : host.ev_file_get_mime_type uri = some m)
    (hsup : comics_check_decompress_support host.g_content_type_is_a host.codec m
      document.archive = (false, error, archive)) :
    comics_document_load host document uri =
      ⟨false, error,
        { document with archive_path := some ap, archive_uri := some uri,
                        archive := archive }⟩ := by
  simp [comics_document_load, hpath, hmime, hsup]

theorem load_supported (host : Host) (document : ComicsDocument) (uri ap m : String)
    (error : Option GError) (archive : EvArchive)
    (hpath : host.g_file_get_path uri = some ap)
    (hmime : host.ev_file_get_mime_type uri = some m)
    (hsup : comics_check_decompress_support host.g_content_type_is_a host.codec m
      document.archive = (true, error, archive)) :
    comics_document_load host document uri =
      match comics_document_list (host.archive_at ap) with
      | none =>
        ⟨false, some ⟨EvDocumentError.EV_DOCUMENT_ERROR_INVALID, ErrorKind.CorruptArchive⟩,
          { document with archive_path := some ap, archive_uri := some uri,
                          archive := archive }⟩
      | some cb_files =>
        if (load_page_names (get_supported_image_extensions host.formats) cb_files []).length
            = 0 then
          ⟨false,
            some ⟨EvDocumentError.EV_DOCUMENT_ERROR_INVALID, ErrorKind.NoImagesFound uri⟩,
            { document with archive_path := some ap, archive_uri := some uri,
                            archive := archive,
                            page_names := some (load_page_names
                              (get_supported_image_extensions host.formats) cb_files []) }⟩
        else
          ⟨true, none,
            { document with archive_path := some ap, archive_uri := some uri,
                            archive := archive,
                            page_names := some (g_ptr_array_sort
                              (sort_page_names host.collate_key)
                              (load_page_names (get_supported_image_extensions host.formats)
                                cb_files [])) }⟩ := by
  simp [comics_document_load, hpath, hmime, hsup]

theorem load_ok_pages (host : Host) (document : ComicsDocument) (uri : String)
    (hok : (comics_document_load host document uri).ok = true) :
    ∃ cb_files : List CStr,
      load_page_names (get_supported_image_extensions host.formats) cb_files [] ≠ [] ∧
      (comics_document_load host document uri).document.page_names =
        some (g_ptr_array_sort (sort_page_names host.collate_key)
          (load_page_names (get_supported_image_extensions host.formats) cb_files [])) := by
  cases hpath : host.g_file_get_path uri with
  | none => rw [load_no_path host document uri hpath] at hok; simp at hok
  | some ap =>
    cases hmime : host.ev_file_get_mime_type uri with
    | none => rw [load_no_mime host document uri ap hpath hmime] at hok; simp at hok
    | some m =>
      rcases hsup : comics_check_decompress_support host.g_content_type_is_a host.codec m
          document.archive with ⟨b, error, archive⟩
      cases b with
      | false =>
        rw [load_unsupported host document uri ap m error archive hpath hmime hsup] at hok
        simp at hok
      | true =>
        rw [load_supported host document uri ap m error archive hpath hmime hsup] at hok ⊢
        cases hl : comics_document_list (host.archive_at ap) with
        | none => rw [hl] at hok; simp at hok
        | some cb_files =>
          rw [hl] at hok
          simp only at hok ⊢
          by_cases hlen :
              (load_page_names (get_supported_image_extensions host.formats) cb_files []).length
                = 0
          · simp [hlen] at hok
          · refine ⟨cb_files, ?_, ?_⟩
            · intro h; exact hlen (by simp [h])
            · simp [hlen]

/-! ### The format selector -/

theorem check_support_cases (is_a : String → String → Bool) (codec : EvArchiveType → Bool)
    (m : String) (archive : EvArchive) :
    (spec_matched_family is_a m = none ∧
      comics_check_decompress_support is_a codec m archive =
        (false, some ⟨EvDocumentError.EV_DOCUMENT_ERROR_INVALID, ErrorKind.UnsupportedType m⟩,
          archive)) ∨
    (∃ t, spec_matched_family is_a m = some t ∧
      (ev_archive_set_archive_type codec archive t).1 = false ∧
      comics_check_decompress_support is_a codec m archive =
        (false,
          some ⟨EvDocumentError.EV_DOCUMENT_ERROR_INVALID, ErrorKind.UnsupportedCompression⟩,
          archive)) ∨
    (∃ t, spec_matched_family is_a m = some t ∧
      (ev_archive_set_archive_type codec archive t).1 = true ∧
      comics_check_decompress_support is_a codec m archive =
        (true, none, { archive with archive_type := t })) := by
  unfold comics_check_decompress_support spec_matched_family spec_format_families
    ev_archive_set_archive_type
  simp only [List.find?]
  by_cases h1 : (is_a m "application/x-cbr" || is_a m "application/x-rar") = true
  · by_cases c : codec EvArchiveType.EV_ARCHIVE_TYPE_RAR = true <;> simp [h1, c]
  · by_cases h2 : (is_a m "application/x-cbz" || is_a m "application/zip") = true
    · by_cases c : codec EvArchiveType.EV_ARCHIVE_TYPE_ZIP = true <;> simp [h1, h2, c]
    · by_cases h3 : (is_a m "application/x-cb7" || is_a m "application/x-7z-compressed") = true
      · by_cases c : codec EvArchiveType.EV_ARCHIVE_TYPE_7Z = true <;> simp [h1, h2, h3, c]
      · by_cases h4 : (is_a m "application/x-cbt" || is_a m "application/x-tar") = true
        · by_cases c : codec EvArchiveType.EV_ARCHIVE_TYPE_TAR = true <;>
            simp [h1, h2, h3, h4, c]
        · simp [h1, h2, h3, h4]

theorem check_support_false_sets_error (is_a : String → String → Bool)
    (codec : EvArchiveType → Bool) (m : String) (archive a : EvArchive)
    (error : Option GError)
    (h : comics_check_decompress_support is_a codec m archive = (false, error, a)) :
    error = some ⟨EvDocumentError.EV_DOCUMENT_ERROR_INVALID, ErrorKind.UnsupportedType m⟩ ∨
    error = some ⟨EvDocumentError.EV_DOCUMENT_ERROR_INVALID, ErrorKind.UnsupportedCompression⟩ := by
  rcases check_support_cases is_a codec m archive with ⟨_, h1⟩ | ⟨t, _, _, h1⟩ | ⟨t, _, _, h1⟩
  · rw [h1] at h
    left
    exact ((Prod.mk.inj (Prod.mk.inj h).2).1).symm
  · rw [h1] at h
    right
    exact ((Prod.mk.inj (Prod.mk.inj h).2).1).symm
  · rw [h1] at h
    simp at h

/-- C5: for every content type, `comics_check_decompress_support` fails with
UnsupportedType exactly when the type matches none of the four families; it
fails with UnsupportedCompression exactly when the type matches a family (the
first in the order RAR, ZIP, 7Z, TAR, by the comic alias or the generic
container type) and setting that archive type on the reader fails; otherwise
it succeeds with no error and the reader committed to exactly that type; the
two errors are different. -/
theorem check_decompress_support_spec (is_a : String → String → Bool)
    (codec : EvArchiveType → Bool) (m : String) (archive : EvArchive) :
    ((comics_check_decompress_support is_a codec m archive).1 = false ∧
        (comics_check_decompress_support is_a codec m archive).2.1 =
          some ⟨EvDocumentError.EV_DOCUMENT_ERROR_INVALID, ErrorKind.UnsupportedType m⟩
      ↔ spec_matched_family is_a m = none) ∧
    ((comics_check_decompress_support is_a codec m archive).1 = false ∧
        (comics_check_decompress_support is_a codec m archive).2.1 =
          some ⟨EvDocumentError.EV_DOCUMENT_ERROR_INVALID, ErrorKind.UnsupportedCompression⟩
      ↔ ∃ t, spec_matched_family is_a m = some t ∧
          (ev_archive_set_archive_type codec archive t).1 = false) ∧
    ((comics_check_decompress_support is_a codec m archive).1 = true
      ↔ ∃ t, spec_matched_family is_a m = some t ∧
          (ev_archive_set_archive_type codec archive t).1 = true) ∧
    (∀ t, spec_matched_family is_a m = some t →
      (ev_archive_set_archive_type codec archive t).1 = true →
      comics_check_decompress_support is_a codec m archive =
          (true, none, (ev_archive_set_archive_type codec archive t).2) ∧
        (comics_check_decompress_support is_a codec m archive).2.2.archive_type = t) ∧
    (⟨EvDocumentError.EV_DOCUMENT_ERROR_INVALID, ErrorKind.UnsupportedType m⟩ : GError) ≠
      ⟨EvDocumentError.EV_DOCUMENT_ERROR_INVALID, ErrorKind.UnsupportedCompression⟩ := by
  rcases check_support_cases is_a codec m archive with
    ⟨hf, h1⟩ | ⟨t, hf, hs, h1⟩ | ⟨t, hf, hs, h1⟩
  · rw [h1, hf]
    simp
  · rw [h1, hf]
    refine ⟨by simp, by simp [hs], by simp [hs], ?_, by simp⟩
    intro t2 ht2 hs2
    have : t = t2 := by simpa using ht2
    subst this
    rw [hs] at hs2
    simp at hs2
  · rw [h1, hf]
    refine ⟨by simp, by simp [hs], by simp [hs], ?_, by simp⟩
    intro t2 ht2 _
    have : t = t2 := by simpa using ht2
    subst this
    unfold ev_archive_set_archive_type at hs ⊢
    by_cases c : codec t = true
    · simp [c]
    · simp [c] at hs

/-! ### The catalogue after load -/

theorem comics_document_list_opened (file : ArchiveFile) (h : file.opens = true) :
    comics_document_list file =
      if file.entries = [] then none else some (file.entries.map ArchiveEntry.pathname) := by
  unfold comics_document_list
  by_cases he : file.entries = []
  · simp [h, he]
  · simp [h, he]

theorem load_page_names_all (E : List CStr) (entries : List ArchiveEntry)
    (hall : ∀ e ∈ entries, cb_file_is_page E e.pathname = true) :
    load_page_names E (entries.map ArchiveEntry.pathname) [] =
      entries.map (fun e => g_strstrip e.pathname) := by
  rw [load_page_names_eq]
  have : (entries.map ArchiveEntry.pathname).filter (cb_file_is_page E) =
      entries.map ArchiveEntry.pathname := by
    rw [List.filter_eq_self]
    intro a ha
    obtain ⟨e, he, rfl⟩ := List.mem_map.1 ha
    exact hall e he
  rw [this, List.map_map]
  rfl

theorem load_page_names_none (E : List CStr) (entries : List ArchiveEntry)
    (hnone : ∀ e ∈ entries, cb_file_is_page E e.pathname = false) :
    load_page_names E (entries.map ArchiveEntry.pathname) [] = [] := by
  rw [load_page_names_eq]
  have : (entries.map ArchiveEntry.pathname).filter (cb_file_is_page E) = [] := by
    rw [List.filter_eq_nil_iff]
    intro a ha
    obtain ⟨e, he, rfl⟩ := List.mem_map.1 ha
    simp [hnone e he]
  rw [this]
  rfl

theorem load_opened_empty (host : Host) (document : ComicsDocument) (uri ap m : String)
    (hpath : host.g_file_get_path uri = some ap)
    (hmime : host.ev_file_get_mime_type uri = some m)
    (hsup : (comics_check_decompress_support host.g_content_type_is_a host.codec m
      document.archive).1 = true)
    (hopen : (host.archive_at ap).opens = true)
    (he : (host.archive_at ap).entries = []) :
    (comics_document_load host document uri).ok = false ∧
    (comics_document_load host document uri).error =
      some ⟨EvDocumentError.EV_DOCUMENT_ERROR_INVALID, ErrorKind.CorruptArchive⟩ ∧
    (comics_document_load host document uri).document.page_names = document.page_names := by
  rcases hc : comics_check_decompress_support host.g_content_type_is_a host.codec m
      document.archive with ⟨b, error, archive⟩
  rw [hc] at hsup
  simp only at hsup
  subst hsup
  rw [load_supported host document uri ap m error archive hpath hmime hc,
    comics_document_list_opened _ hopen]
  simp [he]

theorem load_not_opened (host : Host) (document : ComicsDocument) (uri ap m : String)
    (hpath : host.g_file_get_path uri = some ap)
    (hmime : host.ev_file_get_mime_type uri = some m)
    (hsup : (comics_check_decompress_support host.g_content_type_is_a host.codec m
      document.archive).1 = true)
    (hopen : (host.archive_at ap).opens = false) :
    (comics_document_load host document uri).ok = false ∧
    (comics_document_load host document uri).error =
      some ⟨EvDocumentError.EV_DOCUMENT_ERROR_INVALID, ErrorKind.CorruptArchive⟩ := by
  rcases hc : comics_check_decompress_support host.g_content_type_is_a host.codec m
      document.archive with ⟨b, error, archive⟩
  rw [hc] at hsup
  simp only at hsup
  subst hsup
  rw [load_supported host document uri ap m error archive hpath hmime hc]
  simp [comics_document_list, hopen]

theorem load_opened_no_pages (host : Host) (document : ComicsDocument) (uri ap m : String)
    (hpath : host.g_file_get_path uri = some ap)
    (hmime : host.ev_file_get_mime_type uri = some m)
    (hsup : (comics_check_decompress_support host.g_content_type_is_a host.codec m
      document.archive).1 = true)
    (hopen : (host.archive_at ap).opens = true)
    (he : (host.archive_at ap).entries ≠ [])
    (hp : load_page_names (get_supported_image_extensions host.formats)
      ((host.archive_at ap).entries.map ArchiveEntry.pathname) [] = []) :
    (comics_document_load host document uri).ok = false ∧
    (comics_document_load host document uri).error =
      some ⟨EvDocumentError.EV_DOCUMENT_ERROR_INVALID, ErrorKind.NoImagesFound uri⟩ := by
  rcases hc : comics_check_decompress_support host.g_content_type_is_a host.codec m
      document.archive with ⟨b, error, archive⟩
  rw [hc] at hsup
  simp only at hsup
  subst hsup
  rw [load_supported host document uri ap m error archive hpath hmime hc,
    comics_document_list_opened _ hopen]
  simp [he, hp]

theorem load_opened_pages (host : Host) (document : ComicsDocument) (uri ap m : String)
    (hpath : host.g_file_get_path uri = some ap)
    (hmime : host.ev_file_get_mime_type uri = some m)
    (hsup : (comics_check_decompress_support host.g_content_type_is_a host.codec m
      document.archive).1 = true)
    (hopen : (host.archive_at ap).opens = true)
    (he : (host.archive_at ap).entries ≠ [])
    (hp : load_page_names (get_supported_image_extensions host.formats)
      ((host.archive_at ap).entries.map ArchiveEntry.pathname) [] ≠ []) :
    (comics_document_load host document uri).ok = true ∧
    (comics_document_load host document uri).error = none ∧
    (comics_document_load host document uri).document.page_names =
      some (g_ptr_array_sort (sort_page_names host.collate_key)
        (load_page_names (get_supported_image_extensions host.formats)
          ((host.archive_at ap).entries.map ArchiveEntry.pathname) [])) := by
  rcases hc : comics_check_decompress_support host.g_content_type_is_a host.codec m
      document.archive with ⟨b, error, archive⟩
  rw [hc] at hsup
  simp only at hsup
  subst hsup
  rw [load_supported host document uri ap m error archive hpath hmime hc,
    comics_document_list_opened _ hopen]
  simp [he, hp]

/-- C2, the claim as stated fails: an archive listing the single entry
` a.png` (a leading space) with `png` recognized loads as one page named
`a.png`, which is the pathname of no entry, so the page list is not a
permutation of the pathnames. -/
theorem page_name_differs_from_entry_pathname :
    (∀ e ∈ [example_entry " a.png"],
      cb_file_is_page (get_supported_image_extensions
        (example_host ⟨true, [example_entry " a.png"]⟩).formats) e.pathname = true) ∧
    (comics_document_load (example_host ⟨true, [example_entry " a.png"]⟩)
      comics_document_init "file:///book.cbz").ok = true ∧
    (comics_document_load (example_host ⟨true, [example_entry " a.png"]⟩)
      comics_document_init "file:///book.cbz").document.page_names = some [cstr "a.png"] ∧
    cstr "a.png" ∉ [example_entry " a.png"].map ArchiveEntry.pathname ∧
    ¬ List.Perm [cstr "a.png"] ([example_entry " a.png"].map ArchiveEntry.pathname) := by
  refine ⟨by decide, by decide, by decide, by decide, ?_⟩
  intro h
  have := h.subset (List.mem_singleton_self _)
  revert this
  decide

theorem g_ascii_isspace_iff (c : Nat) :
    g_ascii_isspace c = true ↔ c ∈ [9, 10, 12, 13, 32] := by
  simp only [g_ascii_isspace, Bool.or_eq_true, decide_eq_true_eq, List.mem_cons,
    List.mem_singleton, List.not_mem_nil, or_false]
  tauto

theorem rdropWhile_split (p : Nat → Bool) (l : List Nat) :
    ∃ ws, l = l.rdropWhile p ++ ws ∧ ∀ c ∈ ws, p c = true := by
  induction l using List.reverseRecOn with
  | nil => exact ⟨[], by simp, by simp⟩
  | append_singleton l x ih =>
    by_cases hx : p x = true
    · obtain ⟨ws, h1, h2⟩ := ih
      refine ⟨ws ++ [x], ?_, ?_⟩
      · rw [List.rdropWhile_concat_pos _ _ _ hx, ← List.append_assoc, ← h1]
      · intro c hc
        rcases List.mem_append.1 hc with hc | hc
        · exact h2 c hc
        · rw [List.mem_singleton.1 hc]
          exact hx
    · exact ⟨[], by rw [List.rdropWhile_concat_neg _ _ _ hx]; simp, by simp⟩

theorem g_strstrip_spec (s : List Nat) :
    ∃ ws1 ws2, s = ws1 ++ g_strstrip s ++ ws2 ∧
      (∀ c ∈ ws1, c ∈ [9, 10, 12, 13, 32]) ∧ (∀ c ∈ ws2, c ∈ [9, 10, 12, 13, 32]) ∧
      (∀ c, (g_strstrip s).head? = some c → c ∉ [9, 10, 12, 13, 32]) ∧
      (∀ c, (g_strstrip s).getLast? = some c → c ∉ [9, 10, 12, 13, 32]) := by
  obtain ⟨ws2, h1, h2⟩ := rdropWhile_split g_ascii_isspace (s.dropWhile g_ascii_isspace)
  refine ⟨s.takeWhile g_ascii_isspace, ws2, ?_, ?_, ?_, ?_, ?_⟩
  · unfold g_strstrip g_strchomp g_strchug
    rw [List.append_assoc, ← h1, List.takeWhile_append_dropWhile]
  · intro c hc
    exact (g_ascii_isspace_iff c).1 (List.mem_takeWhile_imp hc)
  · intro c hc
    exact (g_ascii_isspace_iff c).1 (h2 c hc)
  · intro c hc hsp
    have hp : g_ascii_isspace c = true := (g_ascii_isspace_iff c).2 hsp
    unfold g_strstrip g_strchomp g_strchug at hc
    have hpre : List.rdropWhile g_ascii_isspace (s.dropWhile g_ascii_isspace) <+:
        s.dropWhile g_ascii_isspace := List.rdropWhile_prefix _ _
    obtain ⟨t, ht⟩ := hpre
    cases hr : List.rdropWhile g_ascii_isspace (s.dropWhile g_ascii_isspace) with
    | nil => rw [hr] at hc; simp at hc
    | cons a r =>
      rw [hr] at hc ht
      have hac : a = c := by simpa using hc
      subst hac
      have hd := List.head?_dropWhile_not g_ascii_isspace s
      rw [← ht] at hd
      simp [hp] at hd
  · intro c hc hsp
    have hp : g_ascii_isspace c = true := (g_ascii_isspace_iff c).2 hsp
    unfold g_strstrip g_strchomp g_strchug at hc
    by_cases hne : List.rdropWhile g_ascii_isspace (s.dropWhile g_ascii_isspace) = []
    · rw [hne] at hc
      simp at hc
    · have hl := List.rdropWhile_last_not g_ascii_isspace (s.dropWhile g_ascii_isspace) hne
      rw [List.getLast?_eq_getLast _ hne] at hc
      have hlc := Option.some.inj hc
      rw [hlc] at hl
      exact hl hp

theorem g_strstrip_clean (s : List Nat)
    (h : ∀ c, (s.head? = some c ∨ s.getLast? = some c) → c ∉ [9, 10, 12, 13, 32]) :
    g_strstrip s = s := by
  have hd : s.dropWhile g_ascii_isspace = s := by
    cases s with
    | nil => rfl
    | cons a t =>
      have ha : ¬ g_ascii_isspace a = true := fun hp =>
        h a (Or.inl rfl) ((g_ascii_isspace_iff a).1 hp)
      simp [List.dropWhile, ha]
  unfold g_strstrip g_strchomp g_strchug
  rw [hd, List.rdropWhile_eq_self_iff]
  intro hl hp
  exact h _ (Or.inr (List.getLast?_eq_getLast _ hl)) ((g_ascii_isspace_iff _).1 hp)

/-- C2, amended: when the content type is supported, the archive opens and
every listed entry has a recognized extension, the page count after
`comics_document_load` is the number of entries and the page list is a
permutation of the pathnames of the entries with their leading and trailing
ASCII white space removed: each stored name is its pathname between a run of
white space before and a run after, and neither starts nor ends with white
space.  No page is added and none removed.  Where no pathname starts or ends
with white space the page list is a permutation of the pathnames themselves. -/
theorem load_pages_perm_stripped_pathnames (host : Host) (uri ap m : String)
    (hpath : host.g_file_get_path uri = some ap)
    (hmime : host.ev_file_get_mime_type uri = some m)
    (hsup : (comics_check_decompress_support host.g_content_type_is_a host.codec m
      comics_document_init.archive).1 = true)
    (hopen : (host.archive_at ap).opens = true)
    (hall : ∀ e ∈ (host.archive_at ap).entries,
      cb_file_is_page (get_supported_image_extensions host.formats) e.pathname = true) :
    comics_document_get_n_pages (comics_document_load host comics_document_init uri).document
      = (host.archive_at ap).entries.length ∧
    (∃ stripped : List CStr,
      List.Perm
        ((comics_document_load host comics_document_init uri).document.page_names.getD [])
        stripped ∧
      stripped = (host.archive_at ap).entries.map (fun e => g_strstrip e.pathname) ∧
      List.Forall₂
        (fun (page : CStr) (e : ArchiveEntry) =>
          ∃ ws1 ws2, e.pathname = ws1 ++ page ++ ws2 ∧
            (∀ c ∈ ws1, c ∈ [9, 10, 12, 13, 32]) ∧ (∀ c ∈ ws2, c ∈ [9, 10, 12, 13, 32]) ∧
            (∀ c, page.head? = some c → c ∉ [9, 10, 12, 13, 32]) ∧
            (∀ c, page.getLast? = some c → c ∉ [9, 10, 12, 13, 32]))
        stripped (host.archive_at ap).entries) ∧
    ((∀ e ∈ (host.archive_at ap).entries, ∀ c,
        (e.pathname.head? = some c ∨ e.pathname.getLast? = some c) →
        c ∉ [9, 10, 12, 13, 32]) →
      List.Perm
        ((comics_document_load host comics_document_init uri).document.page_names.getD [])
        ((host.archive_at ap).entries.map ArchiveEntry.pathname)) := by
  have hrel : List.Forall₂
      (fun (page : CStr) (e : ArchiveEntry) =>
        ∃ ws1 ws2, e.pathname = ws1 ++ page ++ ws2 ∧
          (∀ c ∈ ws1, c ∈ [9, 10, 12, 13, 32]) ∧ (∀ c ∈ ws2, c ∈ [9, 10, 12, 13, 32]) ∧
          (∀ c, page.head? = some c → c ∉ [9, 10, 12, 13, 32]) ∧
          (∀ c, page.getLast? = some c → c ∉ [9, 10, 12, 13, 32]))
      ((host.archive_at ap).entries.map (fun e => g_strstrip e.pathname))
      (host.archive_at ap).entries := by
    rw [List.forall₂_map_left_iff]
    exact List.forall₂_same.2 (fun e _ => g_strstrip_spec e.pathname)
  by_cases he : (host.archive_at ap).entries = []
  · have h := load_opened_empty host comics_document_init uri ap m hpath hmime hsup hopen he
    simp only [comics_document_get_n_pages, h.2.2]
    refine ⟨by simp [he, comics_document_init], ⟨_, ?_, rfl, hrel⟩, ?_⟩
    · simp [he, comics_document_init]
    · simp [he, comics_document_init]
  · have hne : load_page_names (get_supported_image_extensions host.formats)
        ((host.archive_at ap).entries.map ArchiveEntry.pathname) [] ≠ [] := by
      rw [load_page_names_all _ _ hall]
      simpa using he
    have h := load_opened_pages host comics_document_init uri ap m hpath hmime hsup hopen he hne
    have h3 := h.2.2
    rw [load_page_names_all _ _ hall] at h3
    have hperm := g_ptr_array_sort_perm (sort_page_names host.collate_key)
      ((host.archive_at ap).entries.map (fun e => g_strstrip e.pathname))
    simp only [comics_document_get_n_pages, h3, Option.getD_some]
    refine ⟨by rw [hperm.length_eq, List.length_map], ⟨_, hperm, rfl, hrel⟩, ?_⟩
    intro hclean
    have hmap : (host.archive_at ap).entries.map (fun e => g_strstrip e.pathname) =
        (host.archive_at ap).entries.map ArchiveEntry.pathname :=
      List.map_congr_left (fun e he => g_strstrip_clean e.pathname (hclean e he))
    rw [← hmap]
    exact hperm

/-- Witness for C2 amended: the archive lists ` b.png` after one space and
`a.png` after two; the two pages are `b.png` and `a.png` without the spaces,
in the order the sort gives them. -/
theorem load_pages_perm_stripped_pathnames_witness :
    comics_document_get_n_pages
      (comics_document_load
        (example_host ⟨true, [example_entry " b.png", example_entry "  a.png"]⟩)
        comics_document_init "file:///book.cbz").document = 2 ∧
    ∃ stripped : List CStr,
      List.Perm
        ((comics_document_load
          (example_host ⟨true, [example_entry " b.png", example_entry "  a.png"]⟩)
          comics_document_init "file:///book.cbz").document.page_names.getD [])
        stripped ∧
      stripped = [cstr "b.png", cstr "a.png"] :=
  ⟨(load_pages_perm_stripped_pathnames
      (example_host ⟨true, [example_entry " b.png", example_entry "  a.png"]⟩)
      "file:///book.cbz" "/book.cbz" "application/x-cbz" rfl rfl (by decide) rfl
      (by decide)).1,
   (load_pages_perm_stripped_pathnames
      (example_host ⟨true, [example_entry " b.png", example_entry "  a.png"]⟩)
      "file:///book.cbz" "/book.cbz" "application/x-cbz" rfl rfl (by decide) rfl
      (by decide)).2.1.imp (fun _ h => ⟨h.1, h.2.1.trans (by decide)⟩)⟩

/-! ### The natural order on three pages -/

theorem collate_key_page1 (ck : CStr → CStr) :
    g_utf8_collate_key_for_filename ck (cstr "page1.jpg") =
      ck (cstr "page") ++ ([1, 1, 1, 2, 49, 1, 1, 1, 1] ++ ck (cstr "jpg")) := by
  have h : cstr "page1.jpg" = [112, 97, 103, 101, 49, 46, 106, 112, 103] := by decide
  have hp : cstr "page" = [112, 97, 103, 101] := by decide
  have hj : cstr "jpg" = [106, 112, 103] := by decide
  rw [h, hp, hj]
  simp [g_utf8_collate_key_for_filename, collate_scan, collate_flush, collate_number,
    g_ascii_isdigit, COLLATION_SENTINEL]

theorem collate_key_page2 (ck : CStr → CStr) :
    g_utf8_collate_key_for_filename ck (cstr "page2.jpg") =
      ck (cstr "page") ++ ([1, 1, 1, 2, 50, 1, 1, 1, 1] ++ ck (cstr "jpg")) := by
  have h : cstr "page2.jpg" = [112, 97, 103, 101, 50, 46, 106, 112, 103] := by decide
  have hp : cstr "page" = [112, 97, 103, 101] := by decide
  have hj : cstr "jpg" = [106, 112, 103] := by decide
  rw [h, hp, hj]
  simp [g_utf8_collate_key_for_filename, collate_scan, collate_flush, collate_number,
    g_ascii_isdigit, COLLATION_SENTINEL]

theorem collate_key_page10 (ck : CStr → CStr) :
    g_utf8_collate_key_for_filename ck (cstr "page10.jpg") =
      ck (cstr "page") ++ ([1, 1, 1, 2, 58, 49, 48, 1, 1, 1, 1] ++ ck (cstr "jpg")) := by
  have h : cstr "page10.jpg" = [112, 97, 103, 101, 49, 48, 46, 106, 112, 103] := by decide
  have hp : cstr "page" = [112, 97, 103, 101] := by decide
  have hj : cstr "jpg" = [106, 112, 103] := by decide
  rw [h, hp, hj]
  simp [g_utf8_collate_key_for_filename, collate_scan, collate_flush, collate_number,
    g_ascii_isdigit, COLLATION_SENTINEL]

theorem sort_three_pages (ck : CStr → CStr) :
    g_ptr_array_sort (sort_page_names (g_utf8_collate_key_for_filename ck))
        [cstr "page10.jpg", cstr "page2.jpg", cstr "page1.jpg"] =
      [cstr "page1.jpg", cstr "page2.jpg", cstr "page10.jpg"] := by
  have h21 : ¬ sort_page_names (g_utf8_collate_key_for_filename ck)
      (cstr "page2.jpg") (cstr "page1.jpg") ≤ 0 := by
    simp [sort_page_names, collate_key_page1, collate_key_page2, strcmp_append_left, strcmp]
  have h101 : ¬ sort_page_names (g_utf8_collate_key_for_filename ck)
      (cstr "page10.jpg") (cstr "page1.jpg") ≤ 0 := by
    simp [sort_page_names, collate_key_page1, collate_key_page10, strcmp_append_left, strcmp]
  have h102 : ¬ sort_page_names (g_utf8_collate_key_for_filename ck)
      (cstr "page10.jpg") (cstr "page2.jpg") ≤ 0 := by
    simp [sort_page_names, collate_key_page2, collate_key_page10, strcmp_append_left, strcmp]
  simp [g_ptr_array_sort, List.insertionSort, List.orderedInsert, h21, h101, h102]

/-- C3: after every successful `comics_document_load` the page list is not
empty and is in ascending order under `sort_page_names`, every adjacent pair
comparing at most 0; and with the filename collation key of GLib, whatever
the locale key, three accepted entries listed as `page10.jpg`, `page2.jpg`,
`page1.jpg` give the page list `page1.jpg`, `page2.jpg`, `page10.jpg`. -/
theorem load_pages_sorted :
    (∀ (host : Host) (document : ComicsDocument) (uri : String),
      (comics_document_load host document uri).ok = true →
      ∃ l, (comics_document_load host document uri).document.page_names = some l ∧ l ≠ [] ∧
        List.Chain' (fun a b => sort_page_names host.collate_key a b ≤ 0) l) ∧
    (∀ (host : Host) (document : ComicsDocument) (uri ap m : String) (ck : CStr → CStr),
      host.g_file_get_path uri = some ap →
      host.ev_file_get_mime_type uri = some m →
      (comics_check_decompress_support host.g_content_type_is_a host.codec m
        document.archive).1 = true →
      (host.archive_at ap).opens = true →
      (host.archive_at ap).entries.map ArchiveEntry.pathname =
        [cstr "page10.jpg", cstr "page2.jpg", cstr "page1.jpg"] →
      cstr "jpg" ∈ get_supported_image_extensions host.formats →
      host.collate_key = g_utf8_collate_key_for_filename ck →
      (comics_document_load host document uri).ok = true ∧
      (comics_document_load host document uri).document.page_names =
        some [cstr "page1.jpg", cstr "page2.jpg", cstr "page10.jpg"]) := by
  constructor
  · intro host document uri hok
    obtain ⟨cb_files, hne, hp⟩ := load_ok_pages host document uri hok
    refine ⟨_, hp, ?_, g_ptr_array_sort_sorted _ _⟩
    intro h
    have := (g_ptr_array_sort_perm (sort_page_names host.collate_key)
      (load_page_names (get_supported_image_extensions host.formats) cb_files [])).length_eq
    rw [h] at this
    exact hne (List.length_eq_zero.1 this.symm)
  · intro host document uri ap m ck hpath hmime hsup hopen hentries hjpg hkey
    have he : (host.archive_at ap).entries ≠ [] := by
      intro h
      rw [h] at hentries
      simp at hentries
    have hacc : ∀ p ∈ [cstr "page10.jpg", cstr "page2.jpg", cstr "page1.jpg"],
        cb_file_is_page (get_supported_image_extensions host.formats) p = true := by
      intro p hp
      simp only [List.mem_cons, List.mem_singleton, List.not_mem_nil, or_false] at hp
      rcases hp with rfl | rfl | rfl
      · exact (cb_file_is_page_iff_aux _ _).2
          ⟨cstr "page10", cstr "jpg", by decide, by decide, hjpg⟩
      · exact (cb_file_is_page_iff_aux _ _).2
          ⟨cstr "page2", cstr "jpg", by decide, by decide, hjpg⟩
      · exact (cb_file_is_page_iff_aux _ _).2
          ⟨cstr "page1", cstr "jpg", by decide, by decide, hjpg⟩
    have hpages : load_page_names (get_supported_image_extensions host.formats)
        ((host.archive_at ap).entries.map ArchiveEntry.pathname) [] =
        [cstr "page10.jpg", cstr "page2.jpg", cstr "page1.jpg"] := by
      rw [hentries, load_page_names_eq, List.filter_eq_self.2 hacc]
      decide
    have h := load_opened_pages host document uri ap m hpath hmime hsup hopen he
      (by rw [hpages]; simp)
    refine ⟨h.1, ?_⟩
    rw [h.2.2, hpages, hkey, sort_three_pages]

/-- Witness for C3: the example host on an archive listing `page10.jpg`,
`page2.jpg`, `page1.jpg`. -/
theorem load_pages_sorted_witness :
    (comics_document_load
        (example_host ⟨true, [example_entry "page10.jpg", example_entry "page2.jpg",
          example_entry "page1.jpg"]⟩) comics_document_init "file:///book.cbz").ok = true ∧
    (comics_document_load
        (example_host ⟨true, [example_entry "page10.jpg", example_entry "page2.jpg",
          example_entry "page1.jpg"]⟩) comics_document_init
        "file:///book.cbz").document.page_names =
      some [cstr "page1.jpg", cstr "page2.jpg", cstr "page10.jpg"] :=
  load_pages_sorted.2
    (example_host ⟨true, [example_entry "page10.jpg", example_entry "page2.jpg",
      example_entry "page1.jpg"]⟩) comics_document_init "file:///book.cbz" "/book.cbz"
    "application/x-cbz" id rfl rfl (by decide) rfl (by decide) (by decide) rfl

/-- C4, the claim as stated fails: for a supported content type, an archive
that opens and lists zero entries fails load with the CorruptArchive text
("File corrupted or no files in archive"), not with NoImagesFound. -/
theorem load_zero_entries_is_corrupt_archive :
    (comics_check_decompress_support (example_host ⟨true, []⟩).g_content_type_is_a
      (example_host ⟨true, []⟩).codec "application/x-cbz" comics_document_init.archive).1
      = true ∧
    ((example_host ⟨true, []⟩).archive_at "/book.cbz").opens = true ∧
    ((example_host ⟨true, []⟩).archive_at "/book.cbz").entries = [] ∧
    (comics_document_load (example_host ⟨true, []⟩) comics_document_init
      "file:///book.cbz").ok = false ∧
    (comics_document_load (example_host ⟨true, []⟩) comics_document_init
      "file:///book.cbz").error =
        some ⟨EvDocumentError.EV_DOCUMENT_ERROR_INVALID, ErrorKind.CorruptArchive⟩ ∧
    (comics_document_load (example_host ⟨true, []⟩) comics_document_init
      "file:///book.cbz").error ≠
        some ⟨EvDocumentError.EV_DOCUMENT_ERROR_INVALID,
          ErrorKind.NoImagesFound "file:///book.cbz"⟩ := by
  decide

/-- C4, amended: for a supported content type, `comics_document_load` fails
with CorruptArchive when the file cannot be opened as an archive and also when
the archive opens and lists zero entries; it fails with NoImagesFound when the
archive lists at least one entry and none has a recognized extension; the two
are different errors. -/
theorem load_listing_failures (host : Host) (document : ComicsDocument) (uri ap m : String)
    (hpath : host.g_file_get_path uri = some ap)
    (hmime : host.ev_file_get_mime_type uri = some m)
    (hsup : (comics_check_decompress_support host.g_content_type_is_a host.codec m
      document.archive).1 = true) :
    ((host.archive_at ap).opens = false →
      (comics_document_load host document uri).ok = false ∧
      (comics_document_load host document uri).error =
        some ⟨EvDocumentError.EV_DOCUMENT_ERROR_INVALID, ErrorKind.CorruptArchive⟩) ∧
    ((host.archive_at ap).opens = true → (host.archive_at ap).entries = [] →
      (comics_document_load host document uri).ok = false ∧
      (comics_document_load host document uri).error =
        some ⟨EvDocumentError.EV_DOCUMENT_ERROR_INVALID, ErrorKind.CorruptArchive⟩) ∧
    ((host.archive_at ap).opens = true → (host.archive_at ap).entries ≠ [] →
      (∀ e ∈ (host.archive_at ap).entries,
        cb_file_is_page (get_supported_image_extensions host.formats) e.pathname = false) →
      (comics_document_load host document uri).ok = false ∧
      (comics_document_load host document uri).error =
        some ⟨EvDocumentError.EV_DOCUMENT_ERROR_INVALID, ErrorKind.NoImagesFound uri⟩) ∧
    (⟨EvDocumentError.EV_DOCUMENT_ERROR_INVALID, ErrorKind.CorruptArchive⟩ : GError) ≠
      ⟨EvDocumentError.EV_DOCUMENT_ERROR_INVALID, ErrorKind.NoImagesFound uri⟩ := by
  refine ⟨?_, ?_, ?_, by simp⟩
  · intro hopen
    exact load_not_opened host document uri ap m hpath hmime hsup hopen
  · intro hopen he
    have h := load_opened_empty host document uri ap m hpath hmime hsup hopen he
    exact ⟨h.1, h.2.1⟩
  · intro hopen he hnone
    exact load_opened_no_pages host document uri ap m hpath hmime hsup hopen he
      (load_page_names_none _ _ hnone)

/-- Witness for C4 amended: an archive whose only entry is `b.txt`. -/
theorem load_listing_failures_witness :
    (comics_document_load (example_host ⟨true, [example_entry "b.txt"]⟩)
      comics_document_init "file:///book.cbz").ok = false ∧
    (comics_document_load (example_host ⟨true, [example_entry "b.txt"]⟩)
      comics_document_init "file:///book.cbz").error =
        some ⟨EvDocumentError.EV_DOCUMENT_ERROR_INVALID,
          ErrorKind.NoImagesFound "file:///book.cbz"⟩ :=
  (load_listing_failures (example_host ⟨true, [example_entry "b.txt"]⟩)
    comics_document_init "file:///book.cbz" "/book.cbz" "application/x-cbz" rfl rfl
    (by decide)).2.2.1 rfl (by decide) (by decide)

/-- C6, the code at the failing input: when content-type detection fails
(`ev_file_get_mime_type` returns NULL) `comics_document_load` returns FALSE and
leaves the error of the caller unset; and this is the only failure that does:
every other failing load sets one of the five errors. -/
theorem load_fails_with_error_unset :
    ((comics_document_load (example_host_no_mime ⟨true, [example_entry "a.png"]⟩)
        comics_document_init "file:///book.cbz").ok = false ∧
      (comics_document_load (example_host_no_mime ⟨true, [example_entry "a.png"]⟩)
        comics_document_init "file:///book.cbz").error = none) ∧
    (∀ (host : Host) (document : ComicsDocument) (uri : String),
      (comics_document_load host document uri).ok = false →
      ((comics_document_load host document uri).error = none ↔
        ∃ ap, host.g_file_get_path uri = some ap ∧ host.ev_file_get_mime_type uri = none)) := by
  refine ⟨by decide, ?_⟩
  intro host document uri hok
  cases hpath : host.g_file_get_path uri with
  | none => rw [load_no_path host document uri hpath]; simp
  | some ap =>
    cases hmime : host.ev_file_get_mime_type uri with
    | none => rw [load_no_mime host document uri ap hpath hmime]; simp
    | some m =>
      rcases hsup : comics_check_decompress_support host.g_content_type_is_a host.codec m
          document.archive with ⟨b, error, archive⟩
      cases b with
      | false =>
        rw [load_unsupported host document uri ap m error archive hpath hmime hsup]
        rcases check_support_false_sets_error _ _ _ _ _ _ hsup with h | h <;> simp [h]
      | true =>
        rw [load_supported host document uri ap m error archive hpath hmime hsup] at hok ⊢
        cases hl : comics_document_list (host.archive_at ap) with
        | none => simp
        | some cb_files =>
          rw [hl] at hok
          simp only at hok ⊢
          by_cases hlen :
              (load_page_names (get_supported_image_extensions host.formats) cb_files []).length
                = 0
          · simp [hlen]
          · simp [hlen] at hok

/-! ### The dimension probe -/

theorem clamp_length_le (r : ReadResult) (c : Nat) : (r.clamp c).bytes.length ≤ c := by
  cases r with
  | error => simp [ReadResult.clamp, ReadResult.bytes]
  | data bytes => simp [ReadResult.clamp, ReadResult.bytes, List.length_take]

theorem read_data_length_le (stream : List ReadResult) (c : Nat) :
    (ev_archive_read_data stream c).1.bytes.length ≤ c := by
  cases stream with
  | nil => simp [ev_archive_read_data, ReadResult.bytes]
  | cons r rest => exact clamp_length_le r c

theorem count_pos_eq_length (r : ReadResult) (h : 0 < r.count) :
    r.count = (r.bytes.length : Int) := by
  cases r with
  | error => simp [ReadResult.count] at h
  | data bytes => rfl

theorem feed_got_info {σ π : Type} (L : GdkPixbufLoader σ π) (stream : List ReadResult)
    (left : Int) (loader : σ) (info : PixbufInfo) (h : info.got_info = true) :
    get_page_size_feed L stream left loader info =
      ⟨loader, info,
        [Event.read (min BLOCK_SIZE left).toNat
          (ev_archive_read_data stream (min BLOCK_SIZE left).toNat).1]⟩ := by
  cases stream with
  | nil => rfl
  | cons r rest => simp [get_page_size_feed, h]

theorem feed_nil {σ π : Type} (L : GdkPixbufLoader σ π)
    (left : Int) (loader : σ) (info : PixbufInfo) :
    get_page_size_feed L [] left loader info =
      ⟨loader, info,
        [Event.read (min BLOCK_SIZE left).toNat
          (ev_archive_read_data [] (min BLOCK_SIZE left).toNat).1]⟩ := rfl

theorem feed_stop {σ π : Type} (L : GdkPixbufLoader σ π) (r : ReadResult)
    (rest : List ReadResult) (left : Int) (loader : σ) (info : PixbufInfo)
    (h : ¬ 0 < (ev_archive_read_data (r :: rest) (min BLOCK_SIZE left).toNat).1.count) :
    get_page_size_feed L (r :: rest) left loader info =
      ⟨loader, info,
        [Event.read (min BLOCK_SIZE left).toNat
          (ev_archive_read_data (r :: rest) (min BLOCK_SIZE left).toNat).1]⟩ := by
  simp [get_page_size_feed, h]

theorem feed_fail {σ π : Type} (L : GdkPixbufLoader σ π) (r : ReadResult)
    (rest : List ReadResult) (left : Int) (loader : σ) (info : PixbufInfo)
    (hi : info.got_info = false)
    (h : 0 < (ev_archive_read_data (r :: rest) (min BLOCK_SIZE left).toNat).1.count)
    (hw : (L.write loader
      (ev_archive_read_data (r :: rest) (min BLOCK_SIZE left).toNat).1.bytes).1 = false) :
    get_page_size_feed L (r :: rest) left loader info =
      ⟨(L.write loader
          (ev_archive_read_data (r :: rest) (min BLOCK_SIZE left).toNat).1.bytes).2.2,
        size_prepared_signal (L.write loader
          (ev_archive_read_data (r :: rest) (min BLOCK_SIZE left).toNat).1.bytes).2.1 info,
        [Event.read (min BLOCK_SIZE left).toNat
          (ev_archive_read_data (r :: rest) (min BLOCK_SIZE left).toNat).1,
         Event.write (ev_archive_read_data (r :: rest) (min BLOCK_SIZE left).toNat).1.bytes
          false
          (L.write loader
            (ev_archive_read_data (r :: rest) (min BLOCK_SIZE left).toNat).1.bytes).2.1]⟩ := by
  simp [get_page_size_feed, h, hi, hw]

theorem feed_step {σ π : Type} (L : GdkPixbufLoader σ π) (r : ReadResult)
    (rest : List ReadResult) (left : Int) (loader : σ) (info : PixbufInfo)
    (hi : info.got_info = false)
    (h : 0 < (ev_archive_read_data (r :: rest) (min BLOCK_SIZE left).toNat).1.count)
    (hw : (L.write loader
      (ev_archive_read_data (r :: rest) (min BLOCK_SIZE left).toNat).1.bytes).1 = true) :
    get_page_size_feed L (r :: rest) left loader info =
      ⟨(get_page_size_feed L rest
          (left - (ev_archive_read_data (r :: rest) (min BLOCK_SIZE left).toNat).1.count)
          (L.write loader
            (ev_archive_read_data (r :: rest) (min BLOCK_SIZE left).toNat).1.bytes).2.2
          (size_prepared_signal (L.write loader
            (ev_archive_read_data (r :: rest) (min BLOCK_SIZE left).toNat).1.bytes).2.1
            info)).loader,
        (get_page_size_feed L rest
          (left - (ev_archive_read_data (r :: rest) (min BLOCK_SIZE left).toNat).1.count)
          (L.write loader
            (ev_archive_read_data (r :: rest) (min BLOCK_SIZE left).toNat).1.bytes).2.2
          (size_prepared_signal (L.write loader
            (ev_archive_read_data (r :: rest) (min BLOCK_SIZE left).toNat).1.bytes).2.1
            info)).info,
        Event.read (min BLOCK_SIZE left).toNat
          (ev_archive_read_data (r :: rest) (min BLOCK_SIZE left).toNat).1 ::
        Event.write (ev_archive_read_data (r :: rest) (min BLOCK_SIZE left).toNat).1.bytes
          true
          (L.write loader
            (ev_archive_read_data (r :: rest) (min BLOCK_SIZE left).toNat).1.bytes).2.1 ::
        (get_page_size_feed L rest
          (left - (ev_archive_read_data (r :: rest) (min BLOCK_SIZE left).toNat).1.count)
          (L.write loader
            (ev_archive_read_data (r :: rest) (min BLOCK_SIZE left).toNat).1.bytes).2.2
          (size_prepared_signal (L.write loader
            (ev_archive_read_data (r :: rest) (min BLOCK_SIZE left).toNat).1.bytes).2.1
            info)).trace⟩ := by
  simp [get_page_size_feed, h, hi, hw]

theorem cons_eq_append_cons {α : Type} (a x : α) (l pre post : List α) :
    a :: l = pre ++ x :: post ↔
      (pre = [] ∧ a = x ∧ l = post) ∨ ∃ pre1, pre = a :: pre1 ∧ l = pre1 ++ x :: post := by
  cases pre with
  | nil => simp
  | cons b pre1 =>
    simp only [List.cons_append, List.cons.injEq]
    constructor
    · rintro ⟨rfl, h⟩
      exact Or.inr ⟨pre1, ⟨rfl, rfl⟩, h⟩
    · rintro (⟨h, _⟩ | ⟨p, ⟨rfl, rfl⟩, h⟩)
      · simp at h
      · exact ⟨rfl, h⟩

theorem feed_after_size {σ π : Type} (L : GdkPixbufLoader σ π) (stream : List ReadResult) :
    ∀ (left : Int) (loader : σ) (info : PixbufInfo), info.got_info = false →
    ∀ (pre : List Event) (bytes : List Byte) (ok : Bool) (d : Int × Int) (post : List Event),
      (get_page_size_feed L stream left loader info).trace =
        pre ++ Event.write bytes ok (some d) :: post →
      (ok = true → ∃ c res, post = [Event.read c res]) ∧ (ok = false → post = []) := by
  induction stream with
  | nil =>
    intro left loader info _ pre bytes ok d post ht
    rw [feed_nil] at ht
    rcases (cons_eq_append_cons _ _ _ _ _).1 ht with ⟨_, h, _⟩ | ⟨p, _, h⟩
    · simp at h
    · simp at h
  | cons r rest ih =>
    intro left loader info hi pre bytes ok d post ht
    by_cases h : 0 < (ev_archive_read_data (r :: rest) (min BLOCK_SIZE left).toNat).1.count
    · cases hw : (L.write loader
          (ev_archive_read_data (r :: rest) (min BLOCK_SIZE left).toNat).1.bytes).1 with
      | false =>
        rw [feed_fail L r rest left loader info hi h hw] at ht
        rcases (cons_eq_append_cons _ _ _ _ _).1 ht with ⟨_, h1, _⟩ | ⟨p, _, h1⟩
        · simp at h1
        · rcases (cons_eq_append_cons _ _ _ _ _).1 h1 with ⟨_, h2, h3⟩ | ⟨q, _, h2⟩
          · have hok : false = ok := by injection h2
            subst hok
            exact ⟨by simp, fun _ => h3.symm⟩
          · simp at h2
      | true =>
        rw [feed_step L r rest left loader info hi h hw] at ht
        rcases (cons_eq_append_cons _ _ _ _ _).1 ht with ⟨_, h1, _⟩ | ⟨p, _, h1⟩
        · simp at h1
        · rcases (cons_eq_append_cons _ _ _ _ _).1 h1 with ⟨_, h2, h3⟩ | ⟨q, _, h2⟩
          · have hok : true = ok := by injection h2
            have hsp : (L.write loader (ev_archive_read_data (r :: rest)
                (min BLOCK_SIZE left).toNat).1.bytes).2.1 = some d := by injection h2
            subst hok
            refine ⟨fun _ => ?_, by simp⟩
            rw [feed_got_info L rest _ _ _ (by rw [hsp]; rfl)] at h3
            exact ⟨_, _, h3.symm⟩
          · cases hsp : (L.write loader (ev_archive_read_data (r :: rest)
                (min BLOCK_SIZE left).toNat).1.bytes).2.1 with
            | none =>
              rw [hsp] at h2
              exact ih _ _ _ hi q bytes ok d post h2
            | some d2 =>
              rw [feed_got_info L rest _ _ _ (by rw [hsp]; rfl)] at h2
              rcases (cons_eq_append_cons _ _ _ _ _).1 h2 with ⟨_, h4, _⟩ | ⟨_, _, h4⟩
              · simp at h4
              · simp at h4
    · rw [feed_stop L r rest left loader info h] at ht
      rcases (cons_eq_append_cons _ _ _ _ _).1 ht with ⟨_, h1, _⟩ | ⟨p, _, h1⟩
      · simp at h1
      · simp at h1

theorem min_block_toNat (left : Int) (h : 0 ≤ left) :
    (((min BLOCK_SIZE left).toNat : Nat) : Int) = min BLOCK_SIZE left := by
  apply Int.toNat_of_nonneg
  have : (0 : Int) ≤ BLOCK_SIZE := by decide
  exact le_min this h

theorem feed_requests {σ π : Type} (L : GdkPixbufLoader σ π) (stream : List ReadResult) :
    ∀ (left : Int) (loader : σ) (info : PixbufInfo), 0 ≤ left →
    ∀ (pre : List Event) (c : Nat) (res : ReadResult) (post : List Event),
      (get_page_size_feed L stream left loader info).trace = pre ++ Event.read c res :: post →
      (c : Int) = min BLOCK_SIZE (left - bytes_read pre) ∧ res.bytes.length ≤ c := by
  induction stream with
  | nil =>
    intro left loader info hl pre c res post ht
    rw [feed_nil] at ht
    rcases (cons_eq_append_cons _ _ _ _ _).1 ht with ⟨rfl, h, _⟩ | ⟨p, _, h⟩
    · injection h with h1 h2
      subst h1 h2
      simp [bytes_read, min_block_toNat left hl, ev_archive_read_data, ReadResult.bytes]
    · simp at h
  | cons r rest ih =>
    intro left loader info hl pre c res post ht
    have first : ∀ (l : List Event),
        Event.read (min BLOCK_SIZE left).toNat
            (ev_archive_read_data (r :: rest) (min BLOCK_SIZE left).toNat).1 :: l =
          [] ++ Event.read c res :: post →
        (c : Int) = min BLOCK_SIZE (left - bytes_read []) ∧ res.bytes.length ≤ c := by
      intro l h
      injection h with h1 _
      injection h1 with h1 h2
      subst h1 h2
      simp only [bytes_read, Nat.cast_zero, sub_zero]
      exact ⟨min_block_toNat left hl, read_data_length_le _ _⟩
    by_cases hi : info.got_info = true
    · rw [feed_got_info L _ left loader info hi] at ht
      rcases (cons_eq_append_cons _ _ _ _ _).1 ht with ⟨rfl, _, _⟩ | ⟨p, _, h⟩
      · exact first _ ht
      · simp at h
    · have hi : info.got_info = false := by simpa using hi
      by_cases h : 0 < (ev_archive_read_data (r :: rest) (min BLOCK_SIZE left).toNat).1.count
      · have hcount := count_pos_eq_length _ h
        have hlen := read_data_length_le (r :: rest) (min BLOCK_SIZE left).toNat
        have hleft : 0 ≤ left -
            (ev_archive_read_data (r :: rest) (min BLOCK_SIZE left).toNat).1.count := by
          have h1 := min_block_toNat left hl
          have h2 : min BLOCK_SIZE left ≤ left := min_le_right _ _
          rw [hcount]
          omega
        cases hw : (L.write loader
            (ev_archive_read_data (r :: rest) (min BLOCK_SIZE left).toNat).1.bytes).1 with
        | false =>
          rw [feed_fail L r rest left loader info hi h hw] at ht
          rcases (cons_eq_append_cons _ _ _ _ _).1 ht with ⟨rfl, _, _⟩ | ⟨p, _, h1⟩
          · exact first _ ht
          · rcases (cons_eq_append_cons _ _ _ _ _).1 h1 with ⟨_, h2, _⟩ | ⟨q, _, h2⟩
            · simp at h2
            · simp at h2
        | true =>
          rw [feed_step L r rest left loader info hi h hw] at ht
          rcases (cons_eq_append_cons _ _ _ _ _).1 ht with ⟨rfl, _, _⟩ | ⟨p, rfl, h1⟩
          · exact first _ ht
          · rcases (cons_eq_append_cons _ _ _ _ _).1 h1 with ⟨_, h2, _⟩ | ⟨q, rfl, h2⟩
            · simp at h2
            · have := ih _ _ _ hleft q c res post h2
              refine ⟨?_, this.2⟩
              rw [this.1, hcount]
              simp only [bytes_read]
              congr 1
              push_cast
              ring
      · rw [feed_stop L r rest left loader info h] at ht
        rcases (cons_eq_append_cons _ _ _ _ _).1 ht with ⟨rfl, _, _⟩ | ⟨p, _, h1⟩
        · exact first _ ht
        · simp at h1

theorem feed_info {σ π : Type} (L : GdkPixbufLoader σ π) (stream : List ReadResult) :
    ∀ (left : Int) (loader : σ) (info : PixbufInfo), info.got_info = false →
      ((∀ e ∈ (get_page_size_feed L stream left loader info).trace, e.reports_size = false) →
        (get_page_size_feed L stream left loader info).info = info) ∧
      (∀ (bytes : List Byte) (ok : Bool) (w h : Int),
        Event.write bytes ok (some (w, h)) ∈
          (get_page_size_feed L stream left loader info).trace →
        (get_page_size_feed L stream left loader info).info = ⟨true, h, w⟩) := by
  induction stream with
  | nil =>
    intro left loader info _
    rw [feed_nil]
    simp
  | cons r rest ih =>
    intro left loader info hi
    by_cases h : 0 < (ev_archive_read_data (r :: rest) (min BLOCK_SIZE left).toNat).1.count
    · cases hw : (L.write loader
          (ev_archive_read_data (r :: rest) (min BLOCK_SIZE left).toNat).1.bytes).1 with
      | false =>
        rw [feed_fail L r rest left loader info hi h hw]
        cases hsp : (L.write loader (ev_archive_read_data (r :: rest)
            (min BLOCK_SIZE left).toNat).1.bytes).2.1 with
        | none => simp [size_prepared_signal]
        | some d =>
          obtain ⟨w1, h1⟩ := d
          simp [size_prepared_signal, get_page_size_prepared_cb, Event.reports_size]
          intro _ _ _ _ e1 e2
          exact ⟨e2.symm, e1.symm⟩
      | true =>
        rw [feed_step L r rest left loader info hi h hw]
        cases hsp : (L.write loader (ev_archive_read_data (r :: rest)
            (min BLOCK_SIZE left).toNat).1.bytes).2.1 with
        | none =>
          have := ih (left - (ev_archive_read_data (r :: rest)
            (min BLOCK_SIZE left).toNat).1.count) (L.write loader (ev_archive_read_data
            (r :: rest) (min BLOCK_SIZE left).toNat).1.bytes).2.2 info hi
          simp only [size_prepared_signal]
          constructor
          · intro hall
            apply this.1
            intro e he
            exact hall e (by simp [he])
          · intro bytes ok w h1 hmem
            apply this.2 bytes ok w h1
            simpa using hmem
        | some d =>
          obtain ⟨w1, h1⟩ := d
          rw [feed_got_info L rest _ _ _ (by rfl)]
          simp [size_prepared_signal, get_page_size_prepared_cb, Event.reports_size]
          intro _ _ _ _ e1 e2
          exact ⟨e2.symm, e1.symm⟩
    · rw [feed_stop L r rest left loader info h]
      simp

theorem feed_after_failure {σ π : Type} (L : GdkPixbufLoader σ π) (stream : List ReadResult) :
    ∀ (left : Int) (loader : σ) (info : PixbufInfo) (pre post : List Event),
      (∀ c, (get_page_size_feed L stream left loader info).trace =
          pre ++ Event.read c ReadResult.error :: post → post = []) ∧
      (∀ bytes sp, (get_page_size_feed L stream left loader info).trace =
          pre ++ Event.write bytes false sp :: post → post = []) := by
  induction stream with
  | nil =>
    intro left loader info pre post
    rw [feed_nil]
    constructor
    · intro c ht
      rcases (cons_eq_append_cons _ _ _ _ _).1 ht with ⟨_, _, h⟩ | ⟨p, _, h⟩
      · exact h.symm
      · simp at h
    · intro bytes sp ht
      rcases (cons_eq_append_cons _ _ _ _ _).1 ht with ⟨_, h, _⟩ | ⟨p, _, h⟩
      · simp at h
      · simp at h
  | cons r rest ih =>
    intro left loader info pre post
    have single : ∀ (ev : Event) (pre : List Event),
        ((∀ c, [ev] = pre ++ Event.read c ReadResult.error :: post → post = []) ∧
         (∀ bytes sp, [ev] = pre ++ Event.write bytes false sp :: post → post = [])) := by
      intro ev pre
      constructor
      · intro c ht
        rcases (cons_eq_append_cons _ _ _ _ _).1 ht with ⟨_, _, h⟩ | ⟨p, _, h⟩
        · exact h.symm
        · simp at h
      · intro bytes sp ht
        rcases (cons_eq_append_cons _ _ _ _ _).1 ht with ⟨_, _, h⟩ | ⟨p, _, h⟩
        · exact h.symm
        · simp at h
    by_cases hi : info.got_info = true
    · rw [feed_got_info L _ left loader info hi]
      exact single _ _
    · have hi : info.got_info = false := by simpa using hi
      by_cases h : 0 < (ev_archive_read_data (r :: rest) (min BLOCK_SIZE left).toNat).1.count
      · have hne : (ev_archive_read_data (r :: rest) (min BLOCK_SIZE left).toNat).1 ≠
            ReadResult.error := by
          intro he
          rw [he] at h
          simp [ReadResult.count] at h
        cases hw : (L.write loader
            (ev_archive_read_data (r :: rest) (min BLOCK_SIZE left).toNat).1.bytes).1 with
        | false =>
          rw [feed_fail L r rest left loader info hi h hw]
          constructor
          · intro c ht
            rcases (cons_eq_append_cons _ _ _ _ _).1 ht with ⟨_, h1, _⟩ | ⟨p, _, h1⟩
            · injection h1 with _ h2
              exact absurd h2 hne
            · exact (single _ _).1 c h1
          · intro bytes sp ht
            rcases (cons_eq_append_cons _ _ _ _ _).1 ht with ⟨_, h1, _⟩ | ⟨p, _, h1⟩
            · simp at h1
            · rcases (cons_eq_append_cons _ _ _ _ _).1 h1 with ⟨_, _, h2⟩ | ⟨q, _, h2⟩
              · exact h2.symm
              · simp at h2
        | true =>
          rw [feed_step L r rest left loader info hi h hw]
          constructor
          · intro c ht
            rcases (cons_eq_append_cons _ _ _ _ _).1 ht with ⟨_, h1, _⟩ | ⟨p, _, h1⟩
            · injection h1 with _ h2
              exact absurd h2 hne
            · rcases (cons_eq_append_cons _ _ _ _ _).1 h1 with ⟨_, h2, _⟩ | ⟨q, _, h2⟩
              · simp at h2
              · exact (ih _ _ _ q post).1 c h2
          · intro bytes sp ht
            rcases (cons_eq_append_cons _ _ _ _ _).1 ht with ⟨_, h1, _⟩ | ⟨p, _, h1⟩
            · simp at h1
            · rcases (cons_eq_append_cons _ _ _ _ _).1 h1 with ⟨_, h2, _⟩ | ⟨q, _, h2⟩
              · simp at h2
              · exact (ih _ _ _ q post).2 bytes sp h2
      · rw [feed_stop L r rest left loader info h]
        exact single _ _

theorem scan_cases {σ π : Type} (L : GdkPixbufLoader σ π) (page_path : CStr)
    (entries : List ArchiveEntry) (loader : σ) (info : PixbufInfo) :
    (entries.find? (fun x => decide (x.pathname = page_path)) = none ∧
      get_page_size_scan L page_path entries loader info = ⟨loader, info, []⟩) ∨
    (∃ e, entries.find? (fun x => decide (x.pathname = page_path)) = some e ∧
      get_page_size_scan L page_path entries loader info =
        get_page_size_feed L e.stream (e.size : Int) loader info) := by
  induction entries with
  | nil => left; simp [get_page_size_scan]
  | cons e rest ih =>
    by_cases h : e.pathname = page_path
    · right
      refine ⟨e, by simp [List.find?, h], ?_⟩
      simp [get_page_size_scan, g_strcmp0, (strcmp_eq_zero_iff _ _).2 h]
    · have hs : ¬ strcmp e.pathname page_path = 0 := fun hs => h ((strcmp_eq_zero_iff _ _).1 hs)
      rcases ih with ⟨hn, hsc⟩ | ⟨e2, he2, hsc⟩
      · left
        exact ⟨by simp [List.find?, h, hn], by simp [get_page_size_scan, g_strcmp0, hs, hsc]⟩
      · right
        exact ⟨e2, by simp [List.find?, h, he2],
          by simp [get_page_size_scan, g_strcmp0, hs, hsc]⟩

theorem find_pathname_some (page_path : CStr) (entries : List ArchiveEntry) (e : ArchiveEntry)
    (h : entries.find? (fun x => decide (x.pathname = page_path)) = some e) :
    e ∈ entries ∧ e.pathname = page_path := by
  refine ⟨List.mem_of_find?_eq_some h, ?_⟩
  have := List.find?_some h
  simpa using this

theorem get_page_size_opened {σ π : Type} (L : GdkPixbufLoader σ π) (file : ArchiveFile)
    (document : ComicsDocument) (index : Nat) (width height : Option Int)
    (page_names : List CStr) (page_path : CStr)
    (hopen : file.opens = true)
    (hnames : document.page_names = some page_names)
    (hidx : page_names.get? index = some page_path) :
    comics_document_get_page_size L file document index width height =
      if (size_prepared_signal
            (L.close (get_page_size_scan L page_path file.entries L.new ⟨false, 0, 0⟩).loader).1
            (get_page_size_scan L page_path file.entries L.new ⟨false, 0, 0⟩).info).got_info
          = true then
        some ⟨width.map (fun _ => (size_prepared_signal
            (L.close (get_page_size_scan L page_path file.entries L.new ⟨false, 0, 0⟩).loader).1
            (get_page_size_scan L page_path file.entries L.new ⟨false, 0, 0⟩).info).width),
          height.map (fun _ => (size_prepared_signal
            (L.close (get_page_size_scan L page_path file.entries L.new ⟨false, 0, 0⟩).loader).1
            (get_page_size_scan L page_path file.entries L.new ⟨false, 0, 0⟩).info).height),
          (get_page_size_scan L page_path file.entries L.new ⟨false, 0, 0⟩).trace,
          (L.close (get_page_size_scan L page_path file.entries L.new ⟨false, 0, 0⟩).loader).1⟩
      else
        some ⟨width, height,
          (get_page_size_scan L page_path file.entries L.new ⟨false, 0, 0⟩).trace,
          (L.close (get_page_size_scan L page_path file.entries L.new ⟨false, 0, 0⟩).loader).1⟩ := by
  unfold comics_document_get_page_size
  rw [if_pos hopen]
  simp only [hnames, hidx]

theorem get_page_size_trace {σ π : Type} (L : GdkPixbufLoader σ π) (file : ArchiveFile)
    (document : ComicsDocument) (index : Nat) (width height : Option Int) (r : PageSize)
    (hr : comics_document_get_page_size L file document index width height = some r) :
    r.trace = [] ∨
    ∃ page_path e,
      document.page_names.bind (fun l => l.get? index) = some page_path ∧
      file.entries.find? (fun x => decide (x.pathname = page_path)) = some e ∧
      r.trace = (get_page_size_feed L e.stream (e.size : Int) L.new ⟨false, 0, 0⟩).trace := by
  by_cases hopen : file.opens = true
  · cases hnames : document.page_names with
    | none => simp [comics_document_get_page_size, hopen, hnames] at hr
    | some page_names =>
      cases hidx : page_names.get? index with
      | none =>
        unfold comics_document_get_page_size at hr
        rw [if_pos hopen] at hr
        simp only [hnames, hidx] at hr
        exact absurd hr (by simp)
      | some page_path =>
        rw [get_page_size_opened L file document index width height page_names page_path
          hopen hnames hidx] at hr
        have htr : r.trace =
            (get_page_size_scan L page_path file.entries L.new ⟨false, 0, 0⟩).trace := by
          split at hr <;> (injection hr with hr; rw [← hr])
        rcases scan_cases L page_path file.entries L.new ⟨false, 0, 0⟩ with
          ⟨_, hsc⟩ | ⟨e, he, hsc⟩
        · left
          rw [htr, hsc]
        · right
          exact ⟨page_path, e, hidx, he, by rw [htr, hsc]⟩
  · have hopen : file.opens = false := by simpa using hopen
    simp [comics_document_get_page_size, hopen] at hr
    left
    rw [← hr]

theorem probe_two_chunks (chunk : List Byte) (h : chunk.length = 10240) (second : ReadResult) :
    comics_document_get_page_size (example_loader (fun s => decide (2 ≤ s.length)))
      ⟨true, [⟨cstr "a.png", 10241, [ReadResult.data chunk, second]⟩]⟩
      example_document 0 (some 0) (some 0) =
    some ⟨some 5, some 7,
      [Event.read 10240 (ReadResult.data chunk),
       Event.write chunk true (some (5, 7)),
       Event.read 1 (second.clamp 1)], none⟩ := by
  have h1 : (min BLOCK_SIZE ((10241 : Nat) : Int)).toNat = 10240 := by decide
  have h3 : chunk.take 10240 = chunk := by rw [← h]; exact List.take_length chunk
  have hc : (ev_archive_read_data [ReadResult.data chunk, second] 10240).1 =
      ReadResult.data chunk := by
    simp [ev_archive_read_data, ReadResult.clamp, h3]
  have hpos : 0 < (ev_archive_read_data [ReadResult.data chunk, second]
      (min BLOCK_SIZE ((10241 : Nat) : Int)).toNat).1.count := by
    rw [h1, hc]
    simp [ReadResult.count, h]
  have hw : (example_loader (fun s => decide (2 ≤ s.length))).write
      (example_loader (fun s => decide (2 ≤ s.length))).new chunk =
      (true, some (5, 7), chunk) := by
    simp [example_loader, h]
  have hf : get_page_size_feed (example_loader (fun s => decide (2 ≤ s.length)))
      [ReadResult.data chunk, second] ((10241 : Nat) : Int)
      (example_loader (fun s => decide (2 ≤ s.length))).new ⟨false, 0, 0⟩ =
      ⟨chunk, ⟨true, 7, 5⟩, [Event.read 10240 (ReadResult.data chunk),
        Event.write chunk true (some (5, 7)), Event.read 1 (second.clamp 1)]⟩ := by
    rw [feed_step _ _ _ _ _ _ rfl hpos (by rw [h1, hc]; simp only [ReadResult.bytes, hw])]
    simp only [h1, hc, ReadResult.bytes, hw, ReadResult.count, h]
    rw [feed_got_info _ _ _ _ _ (by rfl)]
    have h2 : (min BLOCK_SIZE (((10241 : Nat) : Int) - ((10240 : Nat) : Int))).toNat = 1 := by
      decide
    simp only [h2, ev_archive_read_data]
    rfl
  rw [get_page_size_opened _ _ example_document 0 (some 0) (some 0) [cstr "a.png"]
    (cstr "a.png") rfl rfl rfl]
  have hscan : get_page_size_scan (example_loader (fun s => decide (2 ≤ s.length)))
      (cstr "a.png")
      (⟨true, [⟨cstr "a.png", 10241, [ReadResult.data chunk, second]⟩]⟩ : ArchiveFile).entries
      (example_loader (fun s => decide (2 ≤ s.length))).new ⟨false, 0, 0⟩ =
      ⟨chunk, ⟨true, 7, 5⟩, [Event.read 10240 (ReadResult.data chunk),
        Event.write chunk true (some (5, 7)), Event.read 1 (second.clamp 1)]⟩ := by
    rw [← hf]
    simp only [get_page_size_scan, g_strcmp0]
    rw [if_pos ((strcmp_eq_zero_iff _ _).2 rfl)]
  rw [hscan]
  rfl

/-- C7, the claim as stated fails: on an entry of 10241 bytes whose image
header is complete within the first chunk, the decoder reports the dimensions
during the write of the first chunk of 10240 bytes, and the probe then asks
the reader for the one remaining byte and receives it: all 10241 bytes of the
entry are read, not only the first chunk. -/
theorem probe_reads_one_chunk_past_size_report :
    comics_document_get_page_size (example_loader (fun s => decide (2 ≤ s.length)))
      ⟨true, [⟨cstr "a.png", 10241,
        [ReadResult.data (List.replicate 10240 0), ReadResult.data [7]]⟩]⟩
      example_document 0 (some 0) (some 0) =
    some ⟨some 5, some 7,
      [Event.read 10240 (ReadResult.data (List.replicate 10240 0)),
       Event.write (List.replicate 10240 0) true (some (5, 7)),
       Event.read 1 (ReadResult.data [7])], none⟩ :=
  probe_two_chunks (List.replicate 10240 0) (List.length_replicate _ _) (ReadResult.data [7])

/-- C7, amended: in `comics_document_get_page_size`, for every archive and
every decoder, once a write has reported the dimensions no further chunk is
written to the decoder, and at most one further read is requested from the
reader: exactly one when that write succeeded, none when it failed.  Every
read request asks for min(10240, declared size less the bytes already read) of
the first entry whose pathname is the page name, and receives no more than it
asks for. -/
theorem get_page_size_stops_feeding {σ π : Type} (L : GdkPixbufLoader σ π)
    (file : ArchiveFile) (document : ComicsDocument) (index : Nat)
    (width height : Option Int) (r : PageSize)
    (hr : comics_document_get_page_size L file document index width height = some r) :
    (∀ (pre : List Event) (bytes : List Byte) (ok : Bool) (d : Int × Int) (post : List Event),
      r.trace = pre ++ Event.write bytes ok (some d) :: post →
      (∀ e ∈ post, e.is_write = false) ∧
      (ok = true → ∃ c res, post = [Event.read c res]) ∧
      (ok = false → post = [])) ∧
    (∀ (pre : List Event) (c : Nat) (res : ReadResult) (post : List Event),
      r.trace = pre ++ Event.read c res :: post →
      ∃ page_path e,
        document.page_names.bind (fun l => l.get? index) = some page_path ∧
        file.entries.find? (fun x => decide (x.pathname = page_path)) = some e ∧
        (c : Int) = min BLOCK_SIZE ((e.size : Int) - bytes_read pre) ∧
        res.bytes.length ≤ c) := by
  rcases get_page_size_trace L file document index width height r hr with
    hnil | ⟨page_path, e, hpage, he, htr⟩
  · constructor
    · intro pre bytes ok d post ht
      rw [hnil] at ht
      simp at ht
    · intro pre c res post ht
      rw [hnil] at ht
      simp at ht
  · constructor
    · intro pre bytes ok d post ht
      rw [htr] at ht
      have h := feed_after_size L e.stream (e.size : Int) L.new ⟨false, 0, 0⟩ rfl
        pre bytes ok d post ht
      refine ⟨?_, h.1, h.2⟩
      intro x hx
      cases ok with
      | true =>
        obtain ⟨c, res, hp⟩ := h.1 rfl
        rw [hp] at hx
        rw [List.mem_singleton.1 hx]
        rfl
      | false =>
        rw [h.2 rfl] at hx
        simp at hx
    · intro pre c res post ht
      rw [htr] at ht
      have h := feed_requests L e.stream (e.size : Int) L.new ⟨false, 0, 0⟩
        (Int.natCast_nonneg _) pre c res post ht
      exact ⟨page_path, e, hpage, he, h.1, h.2⟩

/-- Witness for C7 amended: an entry of 3 bytes delivered as 2 bytes and 1
byte, the decoder reporting the dimensions during the first write; after that
write the trace holds one read and no write. -/
theorem get_page_size_stops_feeding_witness :
    (∀ e ∈ [Event.read 1 (ReadResult.data [3])], e.is_write = false) ∧
    (true = true → ∃ c res, [Event.read 1 (ReadResult.data [3])] = [Event.read c res]) ∧
    (true = false → [Event.read 1 (ReadResult.data [3])] = []) :=
  (get_page_size_stops_feeding (example_loader (fun s => decide (2 ≤ s.length)))
    ⟨true, [⟨cstr "a.png", 3, [ReadResult.data [1, 2], ReadResult.data [3]]⟩]⟩
    example_document 0 (some 0) (some 0)
    ⟨some 5, some 7,
      [Event.read 3 (ReadResult.data [1, 2]), Event.write [1, 2] true (some (5, 7)),
       Event.read 1 (ReadResult.data [3])], none⟩
    (by decide)).1
    [Event.read 3 (ReadResult.data [1, 2])] [1, 2] true (5, 7)
    [Event.read 1 (ReadResult.data [3])] rfl

theorem get_page_size_result {σ π : Type} (L : GdkPixbufLoader σ π) (file : ArchiveFile)
    (document : ComicsDocument) (index : Nat) (width height : Option Int)
    (page_names : List CStr) (page_path : CStr) (p : Probe σ)
    (hopen : file.opens = true)
    (hnames : document.page_names = some page_names)
    (hidx : page_names.get? index = some page_path)
    (hp : get_page_size_scan L page_path file.entries L.new ⟨false, 0, 0⟩ = p) :
    (∀ w h, (L.close p.loader).1 = some (w, h) →
      comics_document_get_page_size L file document index width height =
        some ⟨width.map (fun _ => w), height.map (fun _ => h), p.trace, some (w, h)⟩) ∧
    ((L.close p.loader).1 = none → p.info.got_info = true →
      comics_document_get_page_size L file document index width height =
        some ⟨width.map (fun _ => p.info.width), height.map (fun _ => p.info.height),
          p.trace, none⟩) ∧
    ((L.close p.loader).1 = none → p.info.got_info = false →
      comics_document_get_page_size L file document index width height =
        some ⟨width, height, p.trace, none⟩) := by
  rw [get_page_size_opened L file document index width height page_names page_path
    hopen hnames hidx, hp]
  refine ⟨?_, ?_, ?_⟩
  · intro w h hc
    rw [hc]
    rfl
  · intro hc hg
    rw [hc]
    simp only [size_prepared_signal]
    rw [if_pos hg]
  · intro hc hg
    rw [hc]
    simp only [size_prepared_signal]
    rw [if_neg (by rw [hg]; simp)]

/-- C8, the claim as stated fails: the first chunk of the matched entry is
read and written, the decoder reports 5 by 7 during that write, and the read
of the next chunk fails; the probe still stores 5 and 7 in the width and
height of the caller, which held 0 and 0.  The same happens when no write
reports a size, the next read fails, and the decoder reports 5 by 7 while it
is closed. -/
theorem probe_keeps_size_when_later_read_fails :
    comics_document_get_page_size (example_loader (fun s => decide (2 ≤ s.length)))
        ⟨true, [⟨cstr "a.png", 3, [ReadResult.data [1, 2], ReadResult.error]⟩]⟩
        example_document 0 (some 0) (some 0) =
      some ⟨some 5, some 7,
        [Event.read 3 (ReadResult.data [1, 2]), Event.write [1, 2] true (some (5, 7)),
         Event.read 1 ReadResult.error], none⟩ ∧
    comics_document_get_page_size example_loader_parsing_at_close
        ⟨true, [⟨cstr "a.png", 3, [ReadResult.data [1, 2], ReadResult.error]⟩]⟩
        example_document 0 (some 0) (some 0) =
      some ⟨some 5, some 7,
        [Event.read 3 (ReadResult.data [1, 2]), Event.write [1, 2] true none,
         Event.read 1 ReadResult.error], some (5, 7)⟩ := by
  decide

/-- C8, amended: for every valid page index `comics_document_get_page_size`
returns, and it has no error result.  The width and height of the caller are
left unchanged when the archive does not open; when the header scan ends
without an entry whose pathname equals the page name and the decoder, closed
with nothing written to it, reports no size; and when a chunk read or a
decoder write fails before any write has reported the dimensions and the
closing of the decoder reports none either (more generally whenever neither a
write nor the closing reported them).  When a write or the closing of the
decoder has reported the dimensions they are stored, whatever failed: those
of the closing if it reported, else those of the write. -/
theorem get_page_size_soft_failure {σ π : Type} (L : GdkPixbufLoader σ π)
    (file : ArchiveFile) (document : ComicsDocument) (index : Nat)
    (width height : Option Int) (page_names : List CStr) (page_path : CStr)
    (hnames : document.page_names = some page_names)
    (hidx : page_names.get? index = some page_path) :
    ∃ r : PageSize,
      comics_document_get_page_size L file document index width height = some r ∧
      (file.opens = false → r = ⟨width, height, [], none⟩) ∧
      ((∀ e ∈ file.entries, e.pathname ≠ page_path) → (L.close L.new).1 = none →
        r = ⟨width, height, [], none⟩) ∧
      ((∀ e ∈ r.trace, e.reports_size = false) → r.at_close = none →
        r.width = width ∧ r.height = height) ∧
      (∀ (pre : List Event) (c : Nat) (post : List Event),
        r.trace = pre ++ Event.read c ReadResult.error :: post →
        (∀ e ∈ pre, e.reports_size = false) → r.at_close = none →
        r.width = width ∧ r.height = height) ∧
      (∀ (pre : List Event) (bytes : List Byte) (post : List Event),
        r.trace = pre ++ Event.write bytes false none :: post →
        (∀ e ∈ pre, e.reports_size = false) → r.at_close = none →
        r.width = width ∧ r.height = height) ∧
      (∀ (w h : Int), r.at_close = some (w, h) →
        r.width = width.map (fun _ => w) ∧ r.height = height.map (fun _ => h)) ∧
      (∀ (bytes : List Byte) (ok : Bool) (w h : Int),
        Event.write bytes ok (some (w, h)) ∈ r.trace → r.at_close = none →
        r.width = width.map (fun _ => w) ∧ r.height = height.map (fun _ => h)) := by
  by_cases hopen : file.opens = true
  · have hne : file.opens = false → False := by
      intro h
      rw [hopen] at h
      simp at h
    rcases scan_cases L page_path file.entries L.new ⟨false, 0, 0⟩ with
      ⟨hn, hsc⟩ | ⟨e, hfind, hsc⟩
    · have hres := get_page_size_result L file document index width height page_names
        page_path _ hopen hnames hidx hsc
      cases hc : (L.close L.new).1 with
      | none =>
        refine ⟨_, hres.2.2 hc rfl, fun _ => rfl, fun _ _ => rfl, fun _ _ => ⟨rfl, rfl⟩,
          fun _ _ _ _ _ _ => ⟨rfl, rfl⟩, fun _ _ _ _ _ _ => ⟨rfl, rfl⟩, ?_, ?_⟩
        · intro w h hcl
          exact absurd hcl (by simp)
        · intro bytes ok w h hmem
          exact absurd hmem (by simp)
      | some d =>
        obtain ⟨w1, h1⟩ := d
        refine ⟨_, hres.1 w1 h1 hc, fun h => (hne h).elim, ?_, ?_, ?_, ?_, ?_, ?_⟩
        · intro _ hcl
          exact absurd hcl (by simp)
        · intro _ hcl
          exact absurd hcl (by simp)
        · intro _ _ _ _ _ hcl
          exact absurd hcl (by simp)
        · intro _ _ _ _ _ hcl
          exact absurd hcl (by simp)
        · intro w h hcl
          have hcl2 : some (w1, h1) = some (w, h) := hcl
          injection hcl2 with hcl2
          injection hcl2 with e1 e2
          subst e1 e2
          exact ⟨rfl, rfl⟩
        · intro _ _ _ _ _ hcl
          exact absurd hcl (by simp)
    · obtain ⟨he, hp⟩ := find_pathname_some page_path file.entries e hfind
      have hres := get_page_size_result L file document index width height page_names
        page_path _ hopen hnames hidx hsc
      have hinfo := feed_info L e.stream (e.size : Int) L.new ⟨false, 0, 0⟩ rfl
      have hfail := feed_after_failure L e.stream (e.size : Int) L.new ⟨false, 0, 0⟩
      have hfound : (∀ x ∈ file.entries, x.pathname ≠ page_path) → False :=
        fun h => absurd hp (h e he)
      cases hc : (L.close (get_page_size_feed L e.stream (e.size : Int) L.new
          ⟨false, 0, 0⟩).loader).1 with
      | some d =>
        obtain ⟨w1, h1⟩ := d
        refine ⟨_, hres.1 w1 h1 hc, fun h => (hne h).elim, fun h => (hfound h).elim,
          ?_, ?_, ?_, ?_, ?_⟩
        · intro _ hcl
          exact absurd hcl (by simp)
        · intro _ _ _ _ _ hcl
          exact absurd hcl (by simp)
        · intro _ _ _ _ _ hcl
          exact absurd hcl (by simp)
        · intro w h hcl
          have hcl2 : some (w1, h1) = some (w, h) := hcl
          injection hcl2 with hcl2
          injection hcl2 with e1 e2
          subst e1 e2
          exact ⟨rfl, rfl⟩
        · intro _ _ _ _ _ hcl
          exact absurd hcl (by simp)
      | none =>
        have hquiet : (∀ x ∈ (get_page_size_feed L e.stream (e.size : Int) L.new
              ⟨false, 0, 0⟩).trace, x.reports_size = false) →
            (get_page_size_feed L e.stream (e.size : Int) L.new
              ⟨false, 0, 0⟩).info.got_info = false := by
          intro hall
          rw [hinfo.1 hall]
        by_cases hg : (get_page_size_feed L e.stream (e.size : Int) L.new
            ⟨false, 0, 0⟩).info.got_info = true
        · have hloud : (∀ x ∈ (get_page_size_feed L e.stream (e.size : Int) L.new
              ⟨false, 0, 0⟩).trace, x.reports_size = false) → False := by
            intro hall
            rw [hquiet hall] at hg
            simp at hg
          refine ⟨_, hres.2.1 hc hg, fun h => (hne h).elim, fun h => (hfound h).elim,
            fun h _ => (hloud h).elim, ?_, ?_, ?_, ?_⟩
          · intro pre c post ht hpre _
            have ht2 : (get_page_size_feed L e.stream (e.size : Int) L.new
                ⟨false, 0, 0⟩).trace = pre ++ Event.read c ReadResult.error :: post := ht
            have hpost := (hfail pre post).1 c ht2
            refine (hloud ?_).elim
            rw [ht2, hpost]
            intro x hx
            rcases List.mem_append.1 hx with hx | hx
            · exact hpre x hx
            · rw [List.mem_singleton.1 hx]
              rfl
          · intro pre bytes post ht hpre _
            have ht2 : (get_page_size_feed L e.stream (e.size : Int) L.new
                ⟨false, 0, 0⟩).trace = pre ++ Event.write bytes false none :: post := ht
            have hpost := (hfail pre post).2 bytes none ht2
            refine (hloud ?_).elim
            rw [ht2, hpost]
            intro x hx
            rcases List.mem_append.1 hx with hx | hx
            · exact hpre x hx
            · rw [List.mem_singleton.1 hx]
              rfl
          · intro w h hcl
            exact absurd hcl (by simp)
          · intro bytes ok w h hmem _
            have hmem2 : Event.write bytes ok (some (w, h)) ∈
                (get_page_size_feed L e.stream (e.size : Int) L.new ⟨false, 0, 0⟩).trace :=
              hmem
            show Option.map (fun _ => (get_page_size_feed L e.stream (e.size : Int) L.new
                ⟨false, 0, 0⟩).info.width) width = _ ∧
              Option.map (fun _ => (get_page_size_feed L e.stream (e.size : Int) L.new
                ⟨false, 0, 0⟩).info.height) height = _
            rw [hinfo.2 bytes ok w h hmem2]
            exact ⟨rfl, rfl⟩
        · have hg2 : (get_page_size_feed L e.stream (e.size : Int) L.new
              ⟨false, 0, 0⟩).info.got_info = false := by simpa using hg
          refine ⟨_, hres.2.2 hc hg2, fun h => (hne h).elim, fun h => (hfound h).elim,
            fun _ _ => ⟨rfl, rfl⟩, fun _ _ _ _ _ _ => ⟨rfl, rfl⟩,
            fun _ _ _ _ _ _ => ⟨rfl, rfl⟩, ?_, ?_⟩
          · intro w h hcl
            exact absurd hcl (by simp)
          · intro bytes ok w h hmem _
            have hmem2 : Event.write bytes ok (some (w, h)) ∈
                (get_page_size_feed L e.stream (e.size : Int) L.new ⟨false, 0, 0⟩).trace :=
              hmem
            rw [hinfo.2 bytes ok w h hmem2] at hg
            simp at hg
  · have hopen : file.opens = false := by simpa using hopen
    refine ⟨⟨width, height, [], none⟩, by simp [comics_document_get_page_size, hopen],
      fun _ => rfl, fun _ _ => rfl, fun _ _ => ⟨rfl, rfl⟩, fun _ _ _ _ _ _ => ⟨rfl, rfl⟩,
      fun _ _ _ _ _ _ => ⟨rfl, rfl⟩, ?_, ?_⟩
    · intro w h hcl
      exact absurd hcl (by simp)
    · intro bytes ok w h hmem
      exact absurd hmem (by simp)

/-- Witness for C8 amended: the matched entry delivers one byte, which the
decoder takes without reporting a size, then the next read fails and the
closing of the decoder reports nothing; the width and height keep the values
11 and 13 they had. -/
theorem get_page_size_soft_failure_witness :
    ∃ r : PageSize,
      comics_document_get_page_size (example_loader (fun s => decide (2 ≤ s.length)))
        ⟨true, [⟨cstr "a.png", 3, [ReadResult.data [1], ReadResult.error]⟩]⟩
        example_document 0 (some 11) (some 13) = some r ∧
      r.trace = [Event.read 3 (ReadResult.data [1]), Event.write [1] true none,
        Event.read 2 ReadResult.error] ∧
      r.width = some 11 ∧ r.height = some 13 := by
  obtain ⟨r, h1, _, _, _, h5, _⟩ := get_page_size_soft_failure
    (example_loader (fun s => decide (2 ≤ s.length)))
    ⟨true, [⟨cstr "a.png", 3, [ReadResult.data [1], ReadResult.error]⟩]⟩
    example_document 0 (some 11) (some 13) [cstr "a.png"] (cstr "a.png") rfl rfl
  have hv : comics_document_get_page_size (example_loader (fun s => decide (2 ≤ s.length)))
      ⟨true, [⟨cstr "a.png", 3, [ReadResult.data [1], ReadResult.error]⟩]⟩
      example_document 0 (some 11) (some 13) =
      some ⟨some 11, some 13, [Event.read 3 (ReadResult.data [1]), Event.write [1] true none,
        Event.read 2 ReadResult.error], none⟩ := by decide
  have hr : r = ⟨some 11, some 13, [Event.read 3 (ReadResult.data [1]),
      Event.write [1] true none, Event.read 2 ReadResult.error], none⟩ :=
    (Option.some.inj (h1.symm.trans hv))
  have htr : r.trace = [Event.read 3 (ReadResult.data [1]), Event.write [1] true none] ++
      Event.read 2 ReadResult.error :: [] := by rw [hr]; rfl
  have hcl : r.at_close = none := by rw [hr]
  have hpre : ∀ x ∈ [Event.read 3 (ReadResult.data [1]), Event.write [1] true none],
      x.reports_size = false := by decide
  exact ⟨r, h1, by rw [hr], h5 _ 2 [] htr hpre hcl⟩

/-- C9, the code at the failing input: a page decoded to a pixel buffer and
rendered at rotation 450 hands the angle 360 - 450 = -90 to
`gdk_pixbuf_rotate_simple`, which is none of 90, 180, 270, while rotation 90
hands it 270; the angle is tested modulo 360 but passed on unreduced, so the
two renderings differ. -/
theorem render_rotation_not_reduced :
    comics_document_render_pixbuf (example_loader (fun _ => false)) (fun w h => (w, h))
        example_rotate (fun _ => 0)
        ⟨true, [⟨cstr "a.png", 2, [ReadResult.data [1, 2]]⟩]⟩ example_document 0 90 =
      some (some [1, 2],
        [Event.read 2 (ReadResult.data [1, 2]), Event.write [1, 2] true none,
         Event.rotate 270]) ∧
    comics_document_render_pixbuf (example_loader (fun _ => false)) (fun w h => (w, h))
        example_rotate (fun _ => 0)
        ⟨true, [⟨cstr "a.png", 2, [ReadResult.data [1, 2]]⟩]⟩ example_document 0 450 =
      some (none,
        [Event.read 2 (ReadResult.data [1, 2]), Event.write [1, 2] true none,
         Event.rotate (-90)]) ∧
    comics_document_render_pixbuf (example_loader (fun _ => false)) (fun w h => (w, h))
        example_rotate (fun _ => 0)
        ⟨true, [⟨cstr "a.png", 2, [ReadResult.data [1, 2]]⟩]⟩ example_document 0 360 =
      some (some [1, 2],
        [Event.read 2 (ReadResult.data [1, 2]), Event.write [1, 2] true none]) ∧
    (∀ (rotate_simple : List Byte → Int → Option (List Byte)) (pixbuf : List Byte),
      (render_pixbuf_rotate rotate_simple (some pixbuf) 450).2 = [Event.rotate (-90)] ∧
      (render_pixbuf_rotate rotate_simple (some pixbuf) 90).2 = [Event.rotate 270]) := by
  refine ⟨by decide, by decide, by decide, ?_⟩
  intro rotate_simple pixbuf
  have h450 : ¬ Int.tmod 450 360 = 0 := by decide
  have h90 : ¬ Int.tmod 90 360 = 0 := by decide
  constructor
  · simp only [render_pixbuf_rotate, if_neg h450]
    rfl
  · simp only [render_pixbuf_rotate, if_neg h90]
    rfl

/-- C10, the code at the failing input: the matched entry declares 4 bytes,
the single read returns the 2 bytes 1 and 2 (a short read), and the write to
the decoder passes 4 bytes, the declared size: the 2 bytes read followed by 2
bytes of the block as `g_malloc` left it (here 170), not the 2 bytes the
reader returned.  In general every write of the renderer has the declared
size as its length, and nothing is written when the read returns no byte. -/
theorem render_writes_declared_size_on_short_read :
    comics_document_render_pixbuf (example_loader (fun _ => false)) (fun w h => (w, h))
        example_rotate (fun _ => 170)
        ⟨true, [⟨cstr "a.png", 4, [ReadResult.data [1, 2]]⟩]⟩ example_document 0 0 =
      some (some [1, 2, 170, 170],
        [Event.read 4 (ReadResult.data [1, 2]), Event.write [1, 2, 170, 170] true none]) ∧
    (∀ (σ π : Type) (L : GdkPixbufLoader σ π) (scaled_size : Int → Int → Int × Int)
        (uninit : Nat → Byte) (e : ArchiveEntry) (loader : σ),
      (0 < (ev_archive_read_data e.stream e.size).1.count →
        ∀ bytes ok sp,
          Event.write bytes ok sp ∈ (render_pixbuf_entry L scaled_size uninit e loader).2 →
          bytes.length = e.size) ∧
      ((ev_archive_read_data e.stream e.size).1.count ≤ 0 →
        ∀ x ∈ (render_pixbuf_entry L scaled_size uninit e loader).2, x.is_write = false)) := by
  refine ⟨by decide, ?_⟩
  intro σ π L scaled_size uninit e loader
  constructor
  · intro hpos bytes ok sp hmem
    have hle := read_data_length_le e.stream e.size
    have hnot : ¬ (ev_archive_read_data e.stream e.size).1.count ≤ 0 := by omega
    simp only [render_pixbuf_entry, if_neg hnot] at hmem
    rcases List.mem_cons.1 hmem with h | h
    · exact absurd h (by simp)
    · have h2 := List.mem_singleton.1 h
      injection h2 with hb _ _
      rw [hb]
      simp only [buf_store, List.length_take, List.length_append, List.length_drop,
        List.length_map, List.length_range]
      omega
  · intro hle x hx
    simp only [render_pixbuf_entry, if_pos hle] at hx
    rw [List.mem_singleton.1 hx]
    rfl

end Comics
